import Mathlib

/-!
Shallow embedding of the boxsql storage engine (Rust) in Lean 4.

The page layer models `src/storage/src/page/*`: a page is an 8192-byte
buffer, viewed as a function from byte index to byte value.  All reads
normalize with `% 256`, matching the `u8` type of the Rust buffer; all
multi-byte fields are little-endian exactly as in the source.  The heap
layer models `src/storage/src/heap/*`, the query layer models
`src/storage/src/query/*`.
-/

set_option maxRecDepth 10000

def PAGE_SIZE : Nat := 8192

def HEADER_LEN : Nat := 32

def SLOT_SIZE : Nat := 4

/-- `PageId(pub u64)` from `page_id.rs`. -/
structure PageId where
  val : Nat
  deriving DecidableEq

/-- `PageId::new(file_id: u32, page_no: u32)`: `(file_id << 32) | page_no`. -/
def PageId.new (file_id page_no : Nat) : PageId :=
  ⟨(file_id % 2 ^ 32) * 2 ^ 32 + page_no % 2 ^ 32⟩

def PageId.file_id (p : PageId) : Nat := p.val / 2 ^ 32 % 2 ^ 32

def PageId.page_no (p : PageId) : Nat := p.val % 2 ^ 32

/-- `PageFlags` from `page_id.rs`: Heap=1, Index=2, Meta=4. -/
inductive PageFlags where
  | Heap
  | Index
  | Meta
  deriving DecidableEq

def PageFlags.toNat : PageFlags → Nat
  | .Heap => 1
  | .Index => 2
  | .Meta => 4

/-- `Page { buf: [u8; PAGE_SIZE] }` from `page_file.rs`, as a function from
byte index to byte value. -/
structure Page where
  buf : Nat → Nat

/-- The byte at index `i`; `% 256` reflects the `u8` element type. -/
def Page.byte (p : Page) (i : Nat) : Nat := p.buf i % 256

/-- `copy_from_slice` of `bs` into `buf[off .. off + bs.length]`. -/
def Page.copyTo (p : Page) (off : Nat) (bs : List Nat) : Page :=
  ⟨fun i => if off ≤ i ∧ i < off + bs.length then bs.getD (i - off) 0 else p.buf i⟩

/-- `u16::to_le_bytes`. -/
def le2 (v : Nat) : List Nat := [v % 256, v / 256 % 256]

/-- `u32::to_le_bytes`. -/
def le4 (v : Nat) : List Nat :=
  [v % 256, v / 2 ^ 8 % 256, v / 2 ^ 16 % 256, v / 2 ^ 24 % 256]

/-- `u64::to_le_bytes`. -/
def le8 (v : Nat) : List Nat :=
  [v % 256, v / 2 ^ 8 % 256, v / 2 ^ 16 % 256, v / 2 ^ 24 % 256,
   v / 2 ^ 32 % 256, v / 2 ^ 40 % 256, v / 2 ^ 48 % 256, v / 2 ^ 56 % 256]

/-- `u16::from_le_bytes` applied to `buf[off..off+2]` (`Page::read_u16`). -/
def Page.read_u16 (p : Page) (off : Nat) : Nat :=
  p.byte off + 2 ^ 8 * p.byte (off + 1)

/-- `u32::from_le_bytes` applied to `buf[off..off+4]`. -/
def Page.read_u32 (p : Page) (off : Nat) : Nat :=
  p.byte off + 2 ^ 8 * p.byte (off + 1) + 2 ^ 16 * p.byte (off + 2) +
    2 ^ 24 * p.byte (off + 3)

/-- `u64::from_le_bytes` applied to `buf[off..off+8]`. -/
def Page.read_u64 (p : Page) (off : Nat) : Nat :=
  p.byte off + 2 ^ 8 * p.byte (off + 1) + 2 ^ 16 * p.byte (off + 2) +
    2 ^ 24 * p.byte (off + 3) + 2 ^ 32 * p.byte (off + 4) +
    2 ^ 40 * p.byte (off + 5) + 2 ^ 48 * p.byte (off + 6) +
    2 ^ 56 * p.byte (off + 7)

/-- `Page::write_u16`. -/
def Page.write_u16 (p : Page) (off v : Nat) : Page := p.copyTo off (le2 v)

/-- The bytes `buf[off .. off + n]` as a list. -/
def Page.readBytes (p : Page) (off n : Nat) : List Nat :=
  (List.range n).map (fun i => p.byte (off + i))

/-- `PageHeader` from `page_header.rs`. -/
structure PageHeader where
  checksum : Nat
  page_id : Nat
  page_lsn : Nat
  page_flags : Nat
  lower : Nat
  upper : Nat
  reserved : List Nat

/-- `PageHeader::new`. -/
def PageHeader.new (pid : PageId) (flags : PageFlags) : PageHeader :=
  { checksum := 0, page_id := pid.val, page_lsn := 0,
    page_flags := flags.toNat, lower := HEADER_LEN, upper := PAGE_SIZE,
    reserved := List.replicate 6 0 }

/-- `Page::header`. -/
def Page.header (p : Page) : PageHeader :=
  { checksum := p.read_u32 0, page_id := p.read_u64 4, page_lsn := p.read_u64 12,
    page_flags := p.read_u16 20, lower := p.read_u16 22, upper := p.read_u16 24,
    reserved := p.readBytes 26 6 }

/-- `Page::write_header`: serializes each field little-endian at its offset. -/
def Page.write_header (p : Page) (h : PageHeader) : Page :=
  ((((((p.copyTo 0 (le4 h.checksum)).copyTo 4 (le8 h.page_id)).copyTo 12
      (le8 h.page_lsn)).copyTo 20 (le2 h.page_flags)).copyTo 22
      (le2 h.lower)).copyTo 24 (le2 h.upper)).copyTo 26 (h.reserved.map (· % 256))

/-- `Page::free_space() = upper - lower`. -/
def Page.free_space (p : Page) : Nat := p.read_u16 24 - p.read_u16 22

/-- `Page::page_id`. -/
def Page.pageId (p : Page) : PageId := ⟨p.read_u64 4⟩

/-- One shift-xor round of CRC-32 (IEEE, reflected), polynomial 0xEDB88320,
as computed by `crc32fast::Hasher` in `page_file.rs`. -/
def crcRound (s : Nat) : Nat :=
  if s % 2 = 1 then (s / 2) ^^^ 0xEDB88320 else s / 2

/-- `n` rounds of `crcRound`. -/
def crcRounds : Nat → Nat → Nat
  | 0, s => s
  | n + 1, s => crcRounds n (crcRound s)

/-- Fold one message byte into the CRC state. -/
def crcByte (s b : Nat) : Nat := crcRounds 8 (s ^^^ b)

/-- CRC-32 (IEEE/zlib) of a byte list: init `0xFFFFFFFF`, bytewise
shift-xor rounds, final xor `0xFFFFFFFF`. -/
def crc32 (bs : List Nat) : Nat :=
  (bs.foldl crcByte 0xFFFFFFFF) ^^^ 0xFFFFFFFF

/-- The bytes `[4, PAGE_SIZE)` that the page checksum covers. -/
def Page.checkBytes (p : Page) : List Nat :=
  (List.range (PAGE_SIZE - 4)).map (fun i => p.byte (4 + i))

/-- `Page::verify_checksum`. -/
def Page.verify_checksum (p : Page) : Bool :=
  crc32 p.checkBytes == p.read_u32 0

/-- `Page::recompute_checksum`: zero `buf[0..4]`, hash `buf[4..]`, store the
digest little-endian into `buf[0..4]`. -/
def Page.recompute_checksum (p : Page) : Page :=
  let p1 := p.copyTo 0 [0, 0, 0, 0]
  let sum := crc32 p1.checkBytes
  p1.copyTo 0 (le4 sum)

/-- `Page::new`: zeroed buffer, header written, checksum computed. -/
def Page.new (pid : PageId) (flags : PageFlags) : Page :=
  ((Page.mk fun _ => 0).write_header (PageHeader.new pid flags)).recompute_checksum

/-- `Slot { off: u16, len: u16 }` from `slot.rs`. -/
structure Slot where
  off : Nat
  len : Nat
  deriving DecidableEq

/-- `HeapPage` from `heap_page.rs`. -/
structure HeapPage where
  page : Page

/-- `HeapPage::new_empty`. -/
def HeapPage.new_empty (pid : PageId) : HeapPage :=
  ⟨(Page.new pid PageFlags.Heap).recompute_checksum⟩

/-- `HeapPage::slot_count = (PAGE_SIZE - upper) / 4`. -/
def HeapPage.slot_count (hp : HeapPage) : Nat :=
  (PAGE_SIZE - hp.page.header.upper) / SLOT_SIZE

/-- `HeapPage::read_slot`: the slot base is clamped to `upper` from below. -/
def HeapPage.read_slot (hp : HeapPage) (slot_no : Nat) : Slot :=
  let hdr := hp.page.header
  let base := max (PAGE_SIZE - (slot_no + 1) * SLOT_SIZE) hdr.upper
  ⟨hp.page.read_u16 base, hp.page.read_u16 (base + 2)⟩

/-- `HeapPage::write_slot` (no clamping on the write path). -/
def HeapPage.write_slot (hp : HeapPage) (slot_no : Nat) (s : Slot) : HeapPage :=
  let base := PAGE_SIZE - (slot_no + 1) * SLOT_SIZE
  ⟨(hp.page.write_u16 base s.off).write_u16 (base + 2) s.len⟩

/-- `HeapPage::insert_tuple`. -/
def HeapPage.insert_tuple (hp : HeapPage) (tuple : List Nat) :
    Except String (HeapPage × Nat) :=
  let need := tuple.length + SLOT_SIZE
  if need > hp.page.free_space then .error "not enough free space"
  else
    let hdr := hp.page.header
    let slot_no := hp.slot_count
    let off := hdr.lower
    let pg1 := hp.page.copyTo off tuple
    let hdr1 := { hdr with lower := off + tuple.length, upper := hdr.upper - SLOT_SIZE }
    let pg2 := pg1.write_header hdr1
    let hp3 := HeapPage.write_slot ⟨pg2⟩ slot_no ⟨off, tuple.length⟩
    .ok (⟨hp3.page.recompute_checksum⟩, slot_no)

/-- `HeapPage::read_tuple`. -/
def HeapPage.read_tuple (hp : HeapPage) (slot_no : Nat) : Option (List Nat) :=
  if slot_no ≥ hp.slot_count then none
  else
    let s := hp.read_slot slot_no
    if s.len = 0 then none
    else some (hp.page.readBytes s.off s.len)

/-- `HeapPage::delete_tuple`. -/
def HeapPage.delete_tuple (hp : HeapPage) (slot_no : Nat) :
    Except String HeapPage :=
  if slot_no ≥ hp.slot_count then .error "slot out of range"
  else
    let s := hp.read_slot slot_no
    if s.len = 0 then .ok hp
    else
      let hp1 := hp.write_slot slot_no ⟨s.off, 0⟩
      .ok ⟨hp1.page.recompute_checksum⟩

/-- One iteration of the `compact` loop: copy the live tuple's bytes into the
scratch area at the running cursor, rewrite its slot with the new offset. -/
def HeapPage.compactStep (st : Page × (Nat → Nat) × Nat) (e : Nat × Slot) :
    Page × (Nat → Nat) × Nat :=
  let pg := st.1
  let scratch := st.2.1
  let lo := st.2.2
  let s := e.2
  let data := pg.readBytes s.off s.len
  let scratch' := fun j =>
    if lo - HEADER_LEN ≤ j ∧ j < lo - HEADER_LEN + s.len then
      data.getD (j - (lo - HEADER_LEN)) 0
    else scratch j
  let pg' := (HeapPage.write_slot ⟨pg⟩ e.1 ⟨lo, s.len⟩).page
  (pg', scratch', lo + s.len)

/-- `HeapPage::compact`. -/
def HeapPage.compact (hp : HeapPage) : HeapPage :=
  let hdr := hp.page.header
  let slots := hp.slot_count
  let live := ((List.range slots).map (fun i => (i, hp.read_slot i))).filter
    (fun x => !(x.2.len == 0))
  let st := live.foldl HeapPage.compactStep (hp.page, fun _ => 0, HEADER_LEN)
  let pgF := st.1
  let scratchF := st.2.1
  let lowerF := st.2.2
  let pgT := pgF.copyTo HEADER_LEN ((List.range (lowerF - HEADER_LEN)).map scratchF)
  let pgH := pgT.write_header { hdr with lower := lowerF }
  ⟨pgH.recompute_checksum⟩

instance {ε α : Type} [DecidableEq ε] [DecidableEq α] : DecidableEq (Except ε α) :=
  fun a b =>
    match a, b with
    | .ok x, .ok y => if h : x = y then .isTrue (by rw [h]) else .isFalse (by simp [h])
    | .error x, .error y => if h : x = y then .isTrue (by rw [h]) else .isFalse (by simp [h])
    | .ok _, .error _ => .isFalse (by simp)
    | .error _, .ok _ => .isFalse (by simp)

/-! ## Query layer: types and AST (`types.rs`, `ast.rs`) -/

/-- `DataType` from `types.rs`. -/
inductive DataType where
  | Integer
  | Varchar (max_len : Nat)
  | Boolean
  deriving DecidableEq

/-- `Value` from `types.rs`.  `Integer` is an `i32`, modelled as an `Int`
in `[-2^31, 2^31)`. -/
inductive Value where
  | Integer (i : Int)
  | Varchar (s : String)
  | Boolean (b : Bool)
  | Null
  deriving DecidableEq

/-- `Column` from `types.rs`. -/
structure Column where
  name : String
  data_type : DataType
  nullable : Bool
  deriving DecidableEq

/-- `Schema` from `types.rs`. -/
structure Schema where
  columns : List Column
  deriving DecidableEq

def Row : Type := List Value

/-- `BinaryOperator` from `ast.rs`. -/
inductive BinaryOperator where
  | Eq | Ne | Lt | Le | Gt | Ge | Add | Sub | Mul | Div | And | Or
  deriving DecidableEq

/-- `Expression` from `ast.rs`. -/
inductive Expression where
  | Column (name : String)
  | Literal (value : Value)
  | BinaryOp (left : Expression) (op : BinaryOperator) (right : Expression)
  deriving DecidableEq

/-- `SelectItem` from `ast.rs`. -/
inductive SelectItem where
  | Wildcard
  | Expr (expr : Expression) (aliasName : Option String)
  deriving DecidableEq

/-- `SelectStatement` from `ast.rs`. -/
structure SelectStatement where
  select_list : List SelectItem
  fromTable : Option String
  where_clause : Option Expression
  limit : Option Nat
  deriving DecidableEq

/-- `Statement` from `ast.rs`. -/
inductive Statement where
  | Select (s : SelectStatement)
  deriving DecidableEq

/-! ## Planner (`planner.rs`) -/

/-- `PhysicalPlan` from `planner.rs`. -/
inductive PhysicalPlan where
  | SeqScan (table_name : String) (schema : Schema)
  | Projection (exprs : List Expression) (input : PhysicalPlan)
  | Filter (predicate : Expression) (input : PhysicalPlan)
  | Limit (limit : Nat) (input : PhysicalPlan)
  deriving DecidableEq

/-- `QueryPlanner::get_table_schema`: the stub catalog returns a fixed
`{id: Integer NOT NULL, name: Varchar(255) NULLABLE}` for every table. -/
def get_table_schema (_table_name : String) : Except String Schema :=
  .ok ⟨[⟨"id", DataType.Integer, false⟩, ⟨"name", DataType.Varchar 255, true⟩]⟩

/-- `matches!(item, SelectItem::Wildcard)` from `plan_select`. -/
def SelectItem.is_wildcard : SelectItem → Bool
  | .Wildcard => true
  | .Expr _ _ => false

/-- The `select_list.iter().map(...).collect()` step of `plan_select`:
extract the expression of each item, failing on a `Wildcard`. -/
def extractExprs : List SelectItem → Except String (List Expression)
  | [] => .ok []
  | SelectItem.Expr e _ :: rest =>
    match extractExprs rest with
    | .error msg => .error msg
    | .ok es => .ok (e :: es)
  | SelectItem.Wildcard :: _ => .error "Wildcard not supported in projection"

/-- `QueryPlanner::plan_select`. -/
def plan_select (sel : SelectStatement) : Except String PhysicalPlan :=
  match sel.fromTable with
  | none => .error "SELECT without FROM not yet supported"
  | some table_name =>
    match get_table_schema table_name with
    | .error e => .error e
    | .ok schema =>
      let plan0 := PhysicalPlan.SeqScan table_name schema
      let plan1 :=
        match sel.where_clause with
        | some w => PhysicalPlan.Filter w plan0
        | none => plan0
      let planned :=
        if sel.select_list.any SelectItem.is_wildcard then
          Except.ok plan1
        else
          match extractExprs sel.select_list with
          | .error e => .error e
          | .ok exprs => .ok (PhysicalPlan.Projection exprs plan1)
      match planned with
      | .error e => .error e
      | .ok plan2 =>
        match sel.limit with
        | some n => .ok (PhysicalPlan.Limit n plan2)
        | none => .ok plan2

/-- `QueryPlanner::plan`. -/
def QueryPlanner.plan (stmt : Statement) : Except String PhysicalPlan :=
  match stmt with
  | .Select sel => plan_select sel

/-! ## Row deserialization and sequential scan (`executor.rs`) -/

/-- Reinterpret a `u32` bit pattern as an `i32` (`i32::from_le_bytes`). -/
def toI32 (n : Nat) : Int :=
  if n % 2 ^ 32 < 2 ^ 31 then (n % 2 ^ 32 : Nat) else (n % 2 ^ 32 : Nat) - 2 ^ 32

/-- Byte `i` of a tuple buffer (`&[u8]`). -/
def byteAt (data : List Nat) (i : Nat) : Nat := data.getD i 0 % 256

/-- UTF-8 decoding as performed by Rust's `String::from_utf8`: rejects
overlong encodings, surrogates, and out-of-range code points. -/
def utf8Decode : List Nat → Option (List Char)
  | [] => some []
  | b :: rest =>
    if b < 0x80 then
      (utf8Decode rest).map (Char.ofNat b :: ·)
    else if 0xC2 ≤ b ∧ b ≤ 0xDF then
      match rest with
      | c :: rest2 =>
        if 0x80 ≤ c ∧ c ≤ 0xBF then
          (utf8Decode rest2).map (Char.ofNat ((b - 0xC0) * 64 + (c - 0x80)) :: ·)
        else none
      | [] => none
    else if 0xE0 ≤ b ∧ b ≤ 0xEF then
      match rest with
      | c :: d :: rest2 =>
        let lo1 : Nat := if b = 0xE0 then 0xA0 else 0x80
        let hi1 : Nat := if b = 0xED then 0x9F else 0xBF
        if (lo1 ≤ c ∧ c ≤ hi1) ∧ (0x80 ≤ d ∧ d ≤ 0xBF) then
          (utf8Decode rest2).map
            (Char.ofNat ((b - 0xE0) * 4096 + (c - 0x80) * 64 + (d - 0x80)) :: ·)
        else none
      | _ => none
    else if 0xF0 ≤ b ∧ b ≤ 0xF4 then
      match rest with
      | c :: d :: e :: rest2 =>
        let lo1 : Nat := if b = 0xF0 then 0x90 else 0x80
        let hi1 : Nat := if b = 0xF4 then 0x8F else 0xBF
        if (lo1 ≤ c ∧ c ≤ hi1) ∧ (0x80 ≤ d ∧ d ≤ 0xBF) ∧ (0x80 ≤ e ∧ e ≤ 0xBF) then
          (utf8Decode rest2).map
            (Char.ofNat ((b - 0xF0) * 262144 + (c - 0x80) * 4096 +
              (d - 0x80) * 64 + (e - 0x80)) :: ·)
        else none
      | _ => none
    else none

/-- The column-consuming loop of `QueryExecutor::deserialize_row`, carrying
the running byte offset. -/
def deserCols (data : List Nat) : Nat → List Column → Except String (List Value)
  | _, [] => .ok []
  | off, col :: cols =>
    match col.data_type with
    | .Integer =>
      if off + 4 > data.length then .error "Not enough data for integer column"
      else
        let n := byteAt data off + 2 ^ 8 * byteAt data (off + 1) +
          2 ^ 16 * byteAt data (off + 2) + 2 ^ 24 * byteAt data (off + 3)
        match deserCols data (off + 4) cols with
        | .error e => .error e
        | .ok vs => .ok (Value.Integer (toI32 n) :: vs)
    | .Varchar _ =>
      if off + 4 > data.length then .error "Not enough data for varchar length"
      else
        let len := byteAt data off + 2 ^ 8 * byteAt data (off + 1) +
          2 ^ 16 * byteAt data (off + 2) + 2 ^ 24 * byteAt data (off + 3)
        if off + 4 + len > data.length then .error "Not enough data for varchar content"
        else
          match utf8Decode ((List.range len).map (fun i => byteAt data (off + 4 + i))) with
          | none => .error "invalid utf-8 sequence"
          | some cs =>
            match deserCols data (off + 4 + len) cols with
            | .error e => .error e
            | .ok vs => .ok (Value.Varchar ⟨cs⟩ :: vs)
    | .Boolean =>
      if off + 1 > data.length then .error "Not enough data for boolean column"
      else
        match deserCols data (off + 1) cols with
        | .error e => .error e
        | .ok vs => .ok (Value.Boolean (byteAt data off != 0) :: vs)

/-- `QueryExecutor::deserialize_row`. -/
def deserialize_row (data : List Nat) (schema : Schema) : Except String Row :=
  deserCols data 0 schema.columns

/-- The slot iteration of `execute_seq_scan` over one heap page: skip dead
slots, deserialize live ones, propagate deserialization errors. -/
def scanSlots (schema : Schema) (hp : HeapPage) : List Nat → Except String (List Row)
  | [] => .ok []
  | s :: rest =>
    match hp.read_tuple s with
    | none => scanSlots schema hp rest
    | some d =>
      match deserialize_row d schema with
      | .error e => .error e
      | .ok row =>
        match scanSlots schema hp rest with
        | .error e => .error e
        | .ok rows => .ok (row :: rows)

/-- Rows contributed by one heap page: its slots `0 .. slot_count` in order. -/
def pageRows (schema : Schema) (hp : HeapPage) : Except String (List Row) :=
  scanSlots schema hp (List.range hp.slot_count)

/-- The backing store of `FsDiskManager`: for each `file_id`, the pages of
`base_<file_id>.db` in order. -/
def FileStore : Type := Nat → List Page

/-- `FsDiskManager::read_page`: a read past the end of the file is an I/O
error (`read_exact` fails); an existing page must pass `verify_checksum`. -/
def readPageModel (files : FileStore) (pid : PageId) : Except String Page :=
  match (files pid.file_id).get? pid.page_no with
  | none => .error "io error"
  | some p => if p.verify_checksum then .ok p else .error "checksum mismatch"

/-- The `loop` of `QueryExecutor::execute_seq_scan`: read pages of file 1 at
`page_no = 0, 1, 2, …`; a read error breaks the loop, returning the rows
gathered so far.  `fuel` bounds the iteration count; the wrapper passes
enough fuel that the artificial `0` case is never reached. -/
def seqScanLoop (files : FileStore) (schema : Schema) : Nat → Nat → Except String (List Row)
  | 0, _ => .ok []
  | fuel + 1, page_no =>
    match readPageModel files (PageId.new 1 page_no) with
    | .error _ => .ok []
    | .ok page =>
      match pageRows schema ⟨page⟩ with
      | .error e => .error e
      | .ok rs =>
        match seqScanLoop files schema fuel (page_no + 1) with
        | .error e => .error e
        | .ok more => .ok (rs ++ more)

/-- `QueryExecutor::execute_seq_scan`: the table name is ignored
(`_table_name`), `file_id` is hard-coded to 1. -/
def execute_seq_scan (_table_name : String) (schema : Schema) (files : FileStore) :
    Except String (List Row) :=
  seqScanLoop files schema ((files 1).length + 1) 0

/-! ## SQL parser (`parser.rs`)

The nom combinators are modelled as functions `List Char → Option (List Char × α)`
(`none` is a nom `Err`, `some (rest, value)` an `Ok`).  One narrowing: the
source classifies identifier-continuation characters with Rust's Unicode
`char::is_alphanumeric`; the model uses ASCII alphanumerics, which agrees on
all ASCII inputs. -/

def P (α : Type) : Type := List Char → Option (List Char × α)

def pmap {α β : Type} (p : P α) (f : α → β) : P β := fun input =>
  match p input with
  | none => none
  | some (rest, a) => some (rest, f a)

def pbind {α β : Type} (p : P α) (f : α → P β) : P β := fun input =>
  match p input with
  | none => none
  | some (rest, a) => f a rest

/-- `nom::character::complete::char`. -/
def pchar (c : Char) : P Char := fun input =>
  match input with
  | x :: rest => if x = c then some (rest, x) else none
  | [] => none

/-- `nom::bytes::complete::take_while1`. -/
def takeWhile1 (f : Char → Bool) : P (List Char) := fun input =>
  let t := input.takeWhile f
  if t.isEmpty then none else some (input.drop t.length, t)

/-- `nom::bytes::complete::take_while`. -/
def takeWhile0 (f : Char → Bool) : P (List Char) := fun input =>
  some (input.drop (input.takeWhile f).length, input.takeWhile f)

def isMultispace (c : Char) : Bool :=
  c = ' ' || c = '\t' || c = '\r' || c = '\n'

def multispace0 : P (List Char) := takeWhile0 isMultispace

def multispace1 : P (List Char) := takeWhile1 isMultispace

def digit1 : P (List Char) := takeWhile1 Char.isDigit

def alpha1 : P (List Char) := takeWhile1 Char.isAlpha

/-- `nom::bytes::complete::tag`. -/
def ptag (s : String) : P (List Char) := fun input =>
  if s.toList.isPrefixOf input then some (input.drop s.toList.length, s.toList)
  else none

/-- `nom::bytes::complete::tag_no_case` (ASCII case folding). -/
def ptagNoCase (s : String) : P (List Char) := fun input =>
  let pat := s.toList
  let got := input.take pat.length
  if got.length = pat.length && got.map Char.toLower = pat.map Char.toLower then
    some (input.drop pat.length, got)
  else none

/-- `nom::combinator::opt`. -/
def popt {α : Type} (p : P α) : P (Option α) := fun input =>
  match p input with
  | some (rest, a) => some (rest, some a)
  | none => some (input, none)

/-- `nom::branch::alt` for two alternatives. -/
def alt2 {α : Type} (p q : P α) : P α := fun input =>
  match p input with
  | some r => some r
  | none => q input

/-- `nom::sequence::preceded`. -/
def preceded {α β : Type} (p : P α) (q : P β) : P β :=
  pbind p (fun _ => q)

/-- `nom::sequence::terminated`. -/
def terminated {α β : Type} (p : P α) (q : P β) : P α :=
  pbind p (fun a => pmap q (fun _ => a))

/-- `nom::sequence::delimited`. -/
def delimited {α β γ : Type} (a : P α) (b : P β) (c : P γ) : P β :=
  preceded a (terminated b c)

/-- `nom::sequence::tuple` of two parsers. -/
def pand {α β : Type} (p : P α) (q : P β) : P (α × β) :=
  pbind p (fun a => pmap q (fun b => (a, b)))

/-- `nom::combinator::recognize`: the consumed input slice. -/
def precognize {α : Type} (p : P α) : P (List Char) := fun input =>
  match p input with
  | none => none
  | some (rest, _) => some (rest, input.take (input.length - rest.length))

/-- The loop of `nom::multi::many0`, fuelled by the input length: a parser
that succeeds without consuming makes `many0` fail (nom's infinite-loop
guard). -/
def many0Go {α : Type} (p : P α) : Nat → List Char → Option (List Char × List α)
  | 0, _ => none
  | fuel + 1, input =>
    match p input with
    | none => some (input, [])
    | some (i1, a) =>
      if i1.length = input.length then none
      else
        match many0Go p fuel i1 with
        | none => none
        | some (i2, as1) => some (i2, a :: as1)

def many0 {α : Type} (p : P α) : P (List α) := fun input =>
  many0Go p (input.length + 1) input

/-- The loop of `nom::multi::separated_list1`: stop when the separator or the
following element fails (returning the input positioned before the
separator); fail when an iteration consumes nothing. -/
def sepGo {α β : Type} (sep : P α) (p : P β) :
    Nat → List Char → Option (List Char × List β)
  | 0, _ => none
  | fuel + 1, input =>
    match sep input with
    | none => some (input, [])
    | some (i1, _) =>
      match p i1 with
      | none => some (input, [])
      | some (i2, b) =>
        if i2.length = input.length then none
        else
          match sepGo sep p fuel i2 with
          | none => none
          | some (i3, bs) => some (i3, b :: bs)

/-- `nom::multi::separated_list1`. -/
def separatedList1 {α β : Type} (sep : P α) (p : P β) : P (List β) :=
  pbind p (fun b => fun input =>
    match sepGo sep p (input.length + 1) input with
    | none => none
    | some (rest, bs) => some (rest, b :: bs))

/-- `identifier` from `parser.rs`. -/
def identifier : P String :=
  pmap (precognize (pand (alt2 alpha1 (ptag "_"))
    (takeWhile0 (fun c => c.isAlphanum || c = '_')))) (fun cs => ⟨cs⟩)

/-- `column_expression` from `parser.rs`. -/
def column_expression : P Expression :=
  pmap identifier Expression.Column

def digitsToNat (cs : List Char) : Nat :=
  cs.foldl (fun a c => 10 * a + (c.toNat - '0'.toNat)) 0

/-- `integer_literal` from `parser.rs`: optional leading `-`, digits,
`i32` range check (`parse::<i32>`). -/
def integer_literal : P Expression :=
  pbind (popt (pchar '-')) fun sign =>
    pbind digit1 fun digits => fun input =>
      let v : Int := if sign.isSome then -(digitsToNat digits : Int)
        else (digitsToNat digits : Int)
      if -(2 ^ 31 : Int) ≤ v ∧ v < 2 ^ 31 then
        some (input, Expression.Literal (Value.Integer v))
      else none

/-- `string_literal` from `parser.rs`: single quotes, no escapes, at least
one character (`take_while1`). -/
def string_literal : P Expression :=
  pmap (delimited (pchar '\'') (takeWhile1 (fun c => c ≠ '\'')) (pchar '\''))
    (fun cs => Expression.Literal (Value.Varchar ⟨cs⟩))

/-- `boolean_literal` from `parser.rs`. -/
def boolean_literal : P Expression :=
  alt2 (pmap (ptagNoCase "true") (fun _ => Expression.Literal (Value.Boolean true)))
    (pmap (ptagNoCase "false") (fun _ => Expression.Literal (Value.Boolean false)))

/-- `literal_expression` from `parser.rs`. -/
def literal_expression : P Expression :=
  alt2 integer_literal (alt2 string_literal boolean_literal)

/-- `primary_expression` from `parser.rs`, parameterized by the parser used
for the parenthesized sub-expression. -/
def primary_expression (pexpr : P Expression) : P Expression :=
  alt2 literal_expression (alt2 column_expression
    (delimited (pchar '(') (preceded multispace0 (terminated pexpr multispace0))
      (pchar ')')))

/-- `multiplicative_expression` from `parser.rs`. -/
def multiplicative_expression (pexpr : P Expression) : P Expression :=
  pbind (primary_expression pexpr) fun left =>
    pmap (many0 (pand
        (preceded multispace0 (alt2 (pmap (pchar '*') (fun _ => BinaryOperator.Mul))
          (pmap (pchar '/') (fun _ => BinaryOperator.Div))))
        (preceded multispace0 (primary_expression pexpr))))
      (fun rights => rights.foldl
        (fun acc r => Expression.BinaryOp acc r.1 r.2) left)

/-- `additive_expression` from `parser.rs`. -/
def additive_expression (pexpr : P Expression) : P Expression :=
  pbind (multiplicative_expression pexpr) fun left =>
    pmap (many0 (pand
        (preceded multispace0 (alt2 (pmap (pchar '+') (fun _ => BinaryOperator.Add))
          (pmap (pchar '-') (fun _ => BinaryOperator.Sub))))
        (preceded multispace0 (multiplicative_expression pexpr))))
      (fun rights => rights.foldl
        (fun acc r => Expression.BinaryOp acc r.1 r.2) left)

/-- `equality_expression` from `parser.rs` (non-associative comparison). -/
def equality_expression (pexpr : P Expression) : P Expression :=
  pbind (additive_expression pexpr) fun left =>
    pmap (popt (pand
        (preceded multispace0
          (alt2 (pmap (ptag ">=") (fun _ => BinaryOperator.Ge))
          (alt2 (pmap (ptag "<=") (fun _ => BinaryOperator.Le))
          (alt2 (pmap (ptag "<>") (fun _ => BinaryOperator.Ne))
          (alt2 (pmap (ptag "!=") (fun _ => BinaryOperator.Ne))
          (alt2 (pmap (ptag "=") (fun _ => BinaryOperator.Eq))
          (alt2 (pmap (ptag "<") (fun _ => BinaryOperator.Lt))
            (pmap (ptag ">") (fun _ => BinaryOperator.Gt)))))))))
        (preceded multispace0 (additive_expression pexpr))))
      (fun op_right =>
        match op_right with
        | some (op, right) => Expression.BinaryOp left op right
        | none => left)

/-- `and_expression` from `parser.rs`. -/
def and_expression (pexpr : P Expression) : P Expression :=
  pbind (equality_expression pexpr) fun left =>
    pmap (many0 (pand (preceded multispace0 (ptagNoCase "and"))
        (preceded multispace0 (equality_expression pexpr))))
      (fun rights => rights.foldl
        (fun acc r => Expression.BinaryOp acc BinaryOperator.And r.2) left)

/-- `or_expression` from `parser.rs`. -/
def or_expression (pexpr : P Expression) : P Expression :=
  pbind (and_expression pexpr) fun left =>
    pmap (many0 (pand (preceded multispace0 (ptagNoCase "or"))
        (preceded multispace0 (and_expression pexpr))))
      (fun rights => rights.foldl
        (fun acc r => Expression.BinaryOp acc BinaryOperator.Or r.2) left)

/-- `expression` from `parser.rs`, fuelled: nested parentheses recurse
through `primary_expression`, each nesting level consuming at least one
character, so `input.length + 1` fuel always suffices. -/
def expressionF : Nat → P Expression
  | 0 => fun _ => none
  | fuel + 1 => or_expression (expressionF fuel)

def expression : P Expression := fun input =>
  expressionF (input.length + 1) input

/-- `select_item` from `parser.rs`. -/
def select_item : P SelectItem :=
  alt2 (pmap (pchar '*') (fun _ => SelectItem.Wildcard))
    (pmap expression (fun e => SelectItem.Expr e none))

/-- `select_list` from `parser.rs`. -/
def select_list : P (List SelectItem) :=
  separatedList1 (delimited multispace0 (pchar ',') multispace0) select_item

/-- `from_clause` from `parser.rs`. -/
def from_clause : P String :=
  preceded (preceded multispace1 (ptagNoCase "from")) (preceded multispace1 identifier)

/-- `where_clause` from `parser.rs`. -/
def where_clause : P Expression :=
  preceded (preceded multispace1 (ptagNoCase "where")) (preceded multispace1 expression)

/-- `limit_clause` from `parser.rs` (`parse::<u32>` range check). -/
def limit_clause : P Nat :=
  preceded (preceded multispace1 (ptagNoCase "limit"))
    (preceded multispace1 (pbind digit1 fun digits => fun input =>
      if digitsToNat digits < 2 ^ 32 then some (input, digitsToNat digits)
      else none))

/-- `select_statement` from `parser.rs`. -/
def select_statement : P Statement :=
  pbind (ptagNoCase "select") fun _ =>
    pbind multispace1 fun _ =>
      pbind select_list fun items =>
        pbind (popt from_clause) fun fromT =>
          pbind (popt where_clause) fun whereC =>
            pbind (popt limit_clause) fun limitC =>
              pmap multispace0 fun _ =>
                Statement.Select ⟨items, fromT, whereC, limitC⟩

/-- `statement` from `parser.rs`. -/
def statementP : P Statement :=
  preceded multispace0 select_statement

/-- `parse_sql` from `parser.rs`: note that the remaining input is bound to
`_remaining` and discarded. -/
def parse_sql (s : String) : Except String Statement :=
  match statementP s.toList with
  | some (_remaining, stmt) => .ok stmt
  | none => .error "Parse error"

/-! ## Auxiliary definitions used by the statements -/

/-- Flip bit `k` of the byte at index `i`. -/
def flipByteBit (p : Page) (i k : Nat) : Page :=
  ⟨fun j => if j = i then p.byte i ^^^ 2 ^ k else p.buf j⟩

/-- The `Ok` payload of a `Result`, if any. -/
def exceptOk {ε α : Type} : Except ε α → Option α
  | .ok a => some a
  | .error _ => none

/-- Header well-formedness: `32 ≤ lower ≤ upper ≤ PAGE_SIZE`, and `upper`
stays 4-aligned (it starts at `PAGE_SIZE` and moves in slot-size steps). -/
def HdrInv (hp : HeapPage) : Prop :=
  HEADER_LEN ≤ hp.page.header.lower ∧ hp.page.header.lower ≤ hp.page.header.upper ∧
    hp.page.header.upper ≤ PAGE_SIZE ∧ hp.page.header.upper % 4 = 0

/-- Slot-directory well-formedness: every live slot points into
`[HEADER_LEN, lower)`, and live extents are disjoint in slot order. -/
def SlotsInv (hp : HeapPage) : Prop :=
  (∀ i, i < hp.slot_count → (hp.read_slot i).len ≠ 0 →
    HEADER_LEN ≤ (hp.read_slot i).off ∧
      (hp.read_slot i).off + (hp.read_slot i).len ≤ hp.page.header.lower) ∧
  (∀ j, j < hp.slot_count → ∀ i, i < j → (hp.read_slot i).len ≠ 0 →
    (hp.read_slot j).len ≠ 0 →
    (hp.read_slot i).off + (hp.read_slot i).len ≤ (hp.read_slot j).off)

/-- Well-formedness of a heap page. -/
def WF (hp : HeapPage) : Prop := HdrInv hp ∧ SlotsInv hp

/-- Heap pages reachable from `new_empty` by the public operations. -/
inductive Reach : HeapPage → Prop where
  | base (pid : PageId) : Reach (HeapPage.new_empty pid)
  | ins {hp hp' : HeapPage} {t : List Nat} {s : Nat} (h : Reach hp)
      (he : hp.insert_tuple t = .ok (hp', s)) : Reach hp'
  | del {hp hp' : HeapPage} {s : Nat} (h : Reach hp)
      (he : hp.delete_tuple s = .ok hp') : Reach hp'
  | cmp {hp : HeapPage} (h : Reach hp) : Reach hp.compact

/-- Run a sequence of `insert_tuple` calls, collecting the returned slot
numbers; stops at the first failure. -/
def insertSeq : HeapPage → List (List Nat) → Except String (HeapPage × List Nat)
  | hp, [] => .ok (hp, [])
  | hp, t :: ts =>
    match hp.insert_tuple t with
    | .error e => .error e
    | .ok (hp1, s) =>
      match insertSeq hp1 ts with
      | .error e => .error e
      | .ok (hp2, ss) => .ok (hp2, s :: ss)

/-- Total length of all slots' tuples (tombstones contribute `len = 0`, so
this is the total length of the live tuples). -/
def liveSum (hp : HeapPage) : Nat :=
  (((List.range hp.slot_count).map (fun i => (hp.read_slot i).len)).sum)

/-- The `live` vector built at the start of `HeapPage::compact`: the live
slots of the page with their indices, in ascending index order. -/
def liveEntries (hp : HeapPage) : List (Nat × Slot) :=
  ((List.range hp.slot_count).map (fun i => (i, hp.read_slot i))).filter
    (fun x => !(x.2.len == 0))

/-- Spec-side description of the sequential scan (`spec.md` §4.6): walk the
pages of the file in order; a page that fails verification ends the scan
with the rows gathered so far; rows of verifying pages are appended. -/
def scanPagesSpec (schema : Schema) : List Page → Except String (List Row)
  | [] => .ok []
  | p :: rest =>
    if p.verify_checksum then
      match pageRows schema ⟨p⟩ with
      | .error e => .error e
      | .ok rs =>
        match scanPagesSpec schema rest with
        | .error e => .error e
        | .ok more => .ok (rs ++ more)
    else .ok []

/-- Spec-side description of one page's rows: one `Row` per live slot, in
ascending slot order, each deserialized per the scan schema. -/
def pageRowsSpec (schema : Schema) (hp : HeapPage) : Except String (List Row) :=
  ((List.range hp.slot_count).filterMap hp.read_tuple).mapM
    (fun d => deserialize_row d schema)

/-- Spec-side description of the planner lowering (`spec.md` §4.5): SeqScan
of the named table with the stub schema, Filter exactly when a WHERE clause
is present, Projection of the select-list expressions in order exactly when
no item is a wildcard, Limit outermost exactly when LIMIT is present. -/
def planSpec (stmt : Statement) : Except String PhysicalPlan :=
  match stmt with
  | .Select sel =>
    match sel.fromTable with
    | none => .error "SELECT without FROM not yet supported"
    | some t =>
      let base := PhysicalPlan.SeqScan t
        ⟨[⟨"id", DataType.Integer, false⟩, ⟨"name", DataType.Varchar 255, true⟩]⟩
      let filtered :=
        match sel.where_clause with
        | some w => PhysicalPlan.Filter w base
        | none => base
      let projected :=
        if sel.select_list.any SelectItem.is_wildcard then filtered
        else
          PhysicalPlan.Projection
            (sel.select_list.filterMap fun it =>
              match it with
              | .Expr e _ => some e
              | .Wildcard => none) filtered
      match sel.limit with
      | some n => .ok (.Limit n projected)
      | none => .ok projected

/-! ## Byte-level read/write lemmas -/

theorem xor_lt_pow {x y n : Nat} (hx : x < 2 ^ n) (hy : y < 2 ^ n) :
    x ^^^ y < 2 ^ n :=
  Nat.bitwise_lt hx hy

theorem Page.byte_lt (p : Page) (i : Nat) : p.byte i < 256 :=
  Nat.mod_lt _ (by norm_num)

theorem Page.byte_copyTo (p : Page) (off : Nat) (bs : List Nat) (i : Nat) :
    (p.copyTo off bs).byte i =
      if off ≤ i ∧ i < off + bs.length then bs.getD (i - off) 0 % 256
      else p.byte i := by
  simp only [Page.copyTo, Page.byte]
  split <;> rfl

theorem Page.byte_copyTo_of_lt {off i : Nat} (p : Page) (bs : List Nat)
    (h : i < off) : (p.copyTo off bs).byte i = p.byte i := by
  rw [Page.byte_copyTo, if_neg]
  omega

theorem Page.byte_copyTo_of_ge {off i : Nat} (p : Page) (bs : List Nat)
    (h : off + bs.length ≤ i) : (p.copyTo off bs).byte i = p.byte i := by
  rw [Page.byte_copyTo, if_neg]
  omega

theorem Page.byte_copyTo_of_mem {off i : Nat} (p : Page) (bs : List Nat)
    (h1 : off ≤ i) (h2 : i < off + bs.length) :
    (p.copyTo off bs).byte i = bs.getD (i - off) 0 % 256 := by
  rw [Page.byte_copyTo, if_pos ⟨h1, h2⟩]

theorem le2_length (v : Nat) : (le2 v).length = 2 := rfl

theorem le4_length (v : Nat) : (le4 v).length = 4 := rfl

theorem le8_length (v : Nat) : (le8 v).length = 8 := rfl

theorem Page.read_u16_copyTo_of_left {off2 off : Nat} (p : Page) (bs : List Nat)
    (h : off2 + 2 ≤ off) : (p.copyTo off bs).read_u16 off2 = p.read_u16 off2 := by
  simp only [Page.read_u16]
  rw [Page.byte_copyTo_of_lt _ _ (by omega), Page.byte_copyTo_of_lt _ _ (by omega)]

theorem Page.read_u16_copyTo_of_right {off2 off : Nat} (p : Page) (bs : List Nat)
    (h : off + bs.length ≤ off2) :
    (p.copyTo off bs).read_u16 off2 = p.read_u16 off2 := by
  simp only [Page.read_u16]
  rw [Page.byte_copyTo_of_ge _ _ (by omega), Page.byte_copyTo_of_ge _ _ (by omega)]

theorem Page.read_u16_copyTo_le2 (p : Page) (off v : Nat) :
    (p.copyTo off (le2 v)).read_u16 off = v % 2 ^ 16 := by
  simp only [Page.read_u16, le2]
  rw [Page.byte_copyTo_of_mem _ _ (by omega) (by simp), Page.byte_copyTo_of_mem _ _
    (by omega) (by simp)]
  have h0 : off - off = 0 := by omega
  have h1 : off + 1 - off = 1 := by omega
  rw [h0, h1]
  simp only [List.getD_cons_zero, List.getD_cons_succ]
  omega

theorem Page.read_u16_write_u16_same (p : Page) (off v : Nat) :
    (p.write_u16 off v).read_u16 off = v % 2 ^ 16 :=
  Page.read_u16_copyTo_le2 p off v

theorem Page.read_u16_write_u16_of_ne {off2 off : Nat} (p : Page) (v : Nat)
    (h : off2 + 2 ≤ off ∨ off + 2 ≤ off2) :
    (p.write_u16 off v).read_u16 off2 = p.read_u16 off2 := by
  rcases h with h | h
  · exact Page.read_u16_copyTo_of_left _ _ h
  · exact Page.read_u16_copyTo_of_right _ _ (by rw [le2_length]; omega)

theorem Page.byte_write_u16_of_out {off i : Nat} (p : Page) (v : Nat)
    (h : i < off ∨ off + 2 ≤ i) : (p.write_u16 off v).byte i = p.byte i := by
  rcases h with h | h
  · exact Page.byte_copyTo_of_lt _ _ h
  · exact Page.byte_copyTo_of_ge _ _ (by rw [le2_length]; omega)

theorem Page.read_u16_write_header_lower (p : Page) (h : PageHeader) :
    (p.write_header h).read_u16 22 = h.lower % 2 ^ 16 := by
  simp only [Page.write_header]
  rw [Page.read_u16_copyTo_of_left _ _ (by omega),
    Page.read_u16_copyTo_of_left _ _ (by omega), Page.read_u16_copyTo_le2]

theorem Page.read_u16_write_header_upper (p : Page) (h : PageHeader) :
    (p.write_header h).read_u16 24 = h.upper % 2 ^ 16 := by
  simp only [Page.write_header]
  rw [Page.read_u16_copyTo_of_left _ _ (by omega), Page.read_u16_copyTo_le2]

theorem Page.byte_write_header_of_ge {i : Nat} (p : Page) (h : PageHeader)
    (hres : h.reserved.length = 6) (hi : 32 ≤ i) :
    (p.write_header h).byte i = p.byte i := by
  simp only [Page.write_header]
  rw [Page.byte_copyTo_of_ge _ _ (by rw [List.length_map, hres]; omega),
    Page.byte_copyTo_of_ge _ _ (by rw [le2_length]; omega),
    Page.byte_copyTo_of_ge _ _ (by rw [le2_length]; omega),
    Page.byte_copyTo_of_ge _ _ (by rw [le2_length]; omega),
    Page.byte_copyTo_of_ge _ _ (by rw [le8_length]; omega),
    Page.byte_copyTo_of_ge _ _ (by rw [le8_length]; omega),
    Page.byte_copyTo_of_ge _ _ (by rw [le4_length]; omega)]

theorem Page.byte_recompute_of_ge {i : Nat} (p : Page) (hi : 4 ≤ i) :
    p.recompute_checksum.byte i = p.byte i := by
  simp only [Page.recompute_checksum]
  rw [Page.byte_copyTo_of_ge _ _ (by rw [le4_length]; omega),
    Page.byte_copyTo_of_ge _ _ (by simp only [List.length_cons, List.length_nil]; omega)]

theorem Page.read_u16_recompute_of_ge {off : Nat} (p : Page) (hi : 4 ≤ off) :
    p.recompute_checksum.read_u16 off = p.read_u16 off := by
  simp only [Page.read_u16]
  rw [Page.byte_recompute_of_ge _ (by omega), Page.byte_recompute_of_ge _ (by omega)]

theorem Page.readBytes_eq_of_byte_eq {p q : Page} {off n : Nat}
    (h : ∀ j, j < n → p.byte (off + j) = q.byte (off + j)) :
    p.readBytes off n = q.readBytes off n := by
  simp only [Page.readBytes]
  exact List.map_congr_left fun a ha => h a (List.mem_range.mp ha)

theorem Page.readBytes_length (p : Page) (off n : Nat) :
    (p.readBytes off n).length = n := by
  simp [Page.readBytes]

theorem Page.readBytes_getD (p : Page) (off n j : Nat) (hj : j < n) :
    (p.readBytes off n).getD j 0 = p.byte (off + j) := by
  simp only [Page.readBytes]
  rw [List.getD_eq_getElem?_getD, List.getElem?_map, List.getElem?_range hj]
  rfl

theorem Page.byte_readBytes_mem {p : Page} {off n : Nat} {b : Nat}
    (hb : b ∈ p.readBytes off n) : b < 256 := by
  simp only [Page.readBytes, List.mem_map] at hb
  obtain ⟨a, -, rfl⟩ := hb
  exact p.byte_lt _

/-! ## CRC-32 facts -/

theorem crcRound_lt {s : Nat} (h : s < 2 ^ 32) : crcRound s < 2 ^ 32 := by
  unfold crcRound
  split
  · exact xor_lt_pow (by omega) (by norm_num)
  · omega

theorem crcRound_inj {s1 s2 : Nat} (h1 : s1 < 2 ^ 32) (h2 : s2 < 2 ^ 32)
    (he : crcRound s1 = crcRound s2) : s1 = s2 := by
  unfold crcRound at he
  split at he <;> split at he
  · have hq := Nat.xor_left_inj.mp he
    omega
  · exfalso
    have hx : (0xEDB88320 : Nat) = s1 / 2 ^^^ s2 / 2 := by
      rw [← he, Nat.xor_cancel_left]
    have hlt : s1 / 2 ^^^ s2 / 2 < 2 ^ 31 := xor_lt_pow (by omega) (by omega)
    rw [← hx] at hlt
    norm_num at hlt
  · exfalso
    have hx : (0xEDB88320 : Nat) = s2 / 2 ^^^ s1 / 2 := by
      rw [he, Nat.xor_cancel_left]
    have hlt : s2 / 2 ^^^ s1 / 2 < 2 ^ 31 := xor_lt_pow (by omega) (by omega)
    rw [← hx] at hlt
    norm_num at hlt
  · omega

theorem crcRounds_lt {s : Nat} (n : Nat) (h : s < 2 ^ 32) : crcRounds n s < 2 ^ 32 := by
  induction n generalizing s with
  | zero => exact h
  | succ n ih => exact ih (crcRound_lt h)

theorem crcRounds_inj {s1 s2 : Nat} (n : Nat) (h1 : s1 < 2 ^ 32) (h2 : s2 < 2 ^ 32)
    (he : crcRounds n s1 = crcRounds n s2) : s1 = s2 := by
  induction n generalizing s1 s2 with
  | zero => exact he
  | succ n ih => exact crcRound_inj h1 h2 (ih (crcRound_lt h1) (crcRound_lt h2) he)

theorem crcByte_lt {s b : Nat} (hs : s < 2 ^ 32) (hb : b < 256) : crcByte s b < 2 ^ 32 :=
  crcRounds_lt 8 (xor_lt_pow hs (by omega))

theorem crcByte_inj {s1 s2 b : Nat} (h1 : s1 < 2 ^ 32) (h2 : s2 < 2 ^ 32)
    (hb : b < 256) (he : crcByte s1 b = crcByte s2 b) : s1 = s2 := by
  have hb32 : b < 2 ^ 32 := by omega
  have hx := crcRounds_inj 8 (xor_lt_pow h1 hb32) (xor_lt_pow h2 hb32) he
  exact Nat.xor_left_inj.mp hx

theorem crcByte_ne {s b1 b2 : Nat} (hs : s < 2 ^ 32) (hb1 : b1 < 2 ^ 32)
    (hb2 : b2 < 2 ^ 32) (hne : b1 ≠ b2) : crcByte s b1 ≠ crcByte s b2 := by
  intro he
  have hx := crcRounds_inj 8 (xor_lt_pow hs hb1) (xor_lt_pow hs hb2) he
  exact hne (Nat.xor_right_inj.mp hx)

theorem foldl_crcByte_lt {bs : List Nat} {s : Nat} (hs : s < 2 ^ 32)
    (hb : ∀ b ∈ bs, b < 256) : bs.foldl crcByte s < 2 ^ 32 := by
  induction bs generalizing s with
  | nil => exact hs
  | cons b rest ih =>
    exact ih (crcByte_lt hs (hb b (List.mem_cons_self b rest)))
      (fun x hx => hb x (List.mem_cons_of_mem _ hx))

theorem foldl_crcByte_inj {bs : List Nat} {s1 s2 : Nat} (h1 : s1 < 2 ^ 32)
    (h2 : s2 < 2 ^ 32) (hb : ∀ b ∈ bs, b < 256) (hne : s1 ≠ s2) :
    bs.foldl crcByte s1 ≠ bs.foldl crcByte s2 := by
  induction bs generalizing s1 s2 with
  | nil => exact hne
  | cons b rest ih =>
    have hbb := hb b (List.mem_cons_self b rest)
    exact ih (crcByte_lt h1 hbb) (crcByte_lt h2 hbb)
      (fun x hx => hb x (List.mem_cons_of_mem _ hx))
      (fun hcb => hne (crcByte_inj h1 h2 hbb hcb))

theorem crc32_lt {bs : List Nat} (hb : ∀ b ∈ bs, b < 256) : crc32 bs < 2 ^ 32 :=
  xor_lt_pow (foldl_crcByte_lt (by norm_num) hb) (by norm_num)

theorem crc32_ne_single {pre suf : List Nat} {b1 b2 : Nat}
    (hpre : ∀ b ∈ pre, b < 256) (hsuf : ∀ b ∈ suf, b < 256)
    (hb1 : b1 < 256) (hb2 : b2 < 256) (hne : b1 ≠ b2) :
    crc32 (pre ++ b1 :: suf) ≠ crc32 (pre ++ b2 :: suf) := by
  intro he
  unfold crc32 at he
  have he2 := Nat.xor_left_inj.mp he
  rw [List.foldl_append, List.foldl_append, List.foldl_cons, List.foldl_cons] at he2
  have hs : pre.foldl crcByte 0xFFFFFFFF < 2 ^ 32 :=
    foldl_crcByte_lt (by norm_num) hpre
  exact foldl_crcByte_inj (crcByte_lt hs hb1) (crcByte_lt hs hb2) hsuf
    (crcByte_ne hs (by omega) (by omega) hne) he2

theorem Page.checkBytes_eq_readBytes (p : Page) :
    p.checkBytes = p.readBytes 4 (PAGE_SIZE - 4) := rfl

theorem Page.checkBytes_mem_lt {p : Page} {b : Nat} (hb : b ∈ p.checkBytes) :
    b < 256 :=
  Page.byte_readBytes_mem (p.checkBytes_eq_readBytes ▸ hb)

theorem Page.read_u32_copyTo_le4 (p : Page) (off v : Nat) :
    (p.copyTo off (le4 v)).read_u32 off = v % 2 ^ 32 := by
  simp only [Page.read_u32, le4]
  rw [Page.byte_copyTo_of_mem _ _ (by omega) (by simp),
    Page.byte_copyTo_of_mem _ _ (by omega) (by simp),
    Page.byte_copyTo_of_mem _ _ (by omega) (by simp),
    Page.byte_copyTo_of_mem _ _ (by omega) (by simp)]
  have e0 : off - off = 0 := by omega
  have e1 : off + 1 - off = 1 := by omega
  have e2 : off + 2 - off = 2 := by omega
  have e3 : off + 3 - off = 3 := by omega
  rw [e0, e1, e2, e3]
  simp only [List.getD_cons_zero, List.getD_cons_succ]
  omega

theorem Page.verify_eq_true_iff (p : Page) :
    p.verify_checksum = true ↔ crc32 p.checkBytes = p.read_u32 0 := by
  simp [Page.verify_checksum]

theorem Page.checkBytes_recompute (p : Page) :
    p.recompute_checksum.checkBytes = (p.copyTo 0 [0, 0, 0, 0]).checkBytes := by
  rw [Page.checkBytes_eq_readBytes, Page.checkBytes_eq_readBytes]
  exact Page.readBytes_eq_of_byte_eq fun j _ => by
    simp only [Page.recompute_checksum]
    exact Page.byte_copyTo_of_ge _ _ (by rw [le4_length]; omega)

theorem Page.verify_recompute (p : Page) :
    p.recompute_checksum.verify_checksum = true := by
  rw [Page.verify_eq_true_iff, Page.checkBytes_recompute]
  have hb : ∀ b ∈ (p.copyTo 0 [0, 0, 0, 0]).checkBytes, b < 256 :=
    fun b hb => Page.checkBytes_mem_lt hb
  have hr : p.recompute_checksum.read_u32 0 =
      crc32 (p.copyTo 0 [0, 0, 0, 0]).checkBytes := by
    simp only [Page.recompute_checksum]
    rw [Page.read_u32_copyTo_le4]
    exact Nat.mod_eq_of_lt (crc32_lt hb)
  rw [hr]

theorem map_range_decomp (m r : Nat) (f : Nat → Nat) :
    (List.range (m + 1 + r)).map f =
      (List.range m).map f ++ f m :: (List.range r).map (fun t => f (m + 1 + t)) := by
  rw [Nat.add_assoc, List.range_add, List.map_append, List.map_map]
  congr 1
  rw [List.range_add, List.map_append, List.map_map]
  have h1 : List.range 1 = [0] := rfl
  rw [h1]
  simp [Function.comp, Nat.add_assoc]

theorem flipByteBit_byte_same (p : Page) (i k : Nat) (hk : k < 8) :
    (flipByteBit p i k).byte i = p.byte i ^^^ 2 ^ k := by
  have h2k : 2 ^ k < 2 ^ 8 := Nat.pow_lt_pow_right (by norm_num) hk
  simp only [flipByteBit, Page.byte]
  rw [if_pos trivial]
  have hlt : p.buf i % 256 ^^^ 2 ^ k < 2 ^ 8 :=
    xor_lt_pow (by have := Nat.mod_lt (p.buf i) (y := 256) (by norm_num); omega) h2k
  exact Nat.mod_eq_of_lt (by omega)

theorem flipByteBit_byte_ne (p : Page) (i k j : Nat) (hj : j ≠ i) :
    (flipByteBit p i k).byte j = p.byte j := by
  simp only [flipByteBit, Page.byte]
  rw [if_neg hj]


theorem flip_changes_byte (p : Page) (i k : Nat) : p.byte i ^^^ 2 ^ k ≠ p.byte i := by
  intro h
  have h0 : p.byte i ^^^ 2 ^ k = p.byte i ^^^ 0 := by rw [Nat.xor_zero]; exact h
  have := Nat.xor_right_inj.mp h0
  exact absurd this (Nat.pos_iff_ne_zero.mp (Nat.pos_pow_of_pos k (by norm_num)))

theorem read_u32_flip (p : Page) (i k : Nat) (hi : 4 ≤ i) :
    (flipByteBit p i k).read_u32 0 = p.read_u32 0 := by
  simp only [Page.read_u32]
  rw [flipByteBit_byte_ne _ _ _ _ (by omega), flipByteBit_byte_ne _ _ _ _ (by omega),
    flipByteBit_byte_ne _ _ _ _ (by omega), flipByteBit_byte_ne _ _ _ _ (by omega)]

theorem verify_flip_false (p : Page) (i k : Nat) (hv : p.verify_checksum = true)
    (hi4 : 4 ≤ i) (hiP : i < PAGE_SIZE) (hk : k < 8) :
    (flipByteBit p i k).verify_checksum = false := by
  have h2k : 2 ^ k < 2 ^ 8 := Nat.pow_lt_pow_right (by norm_num) hk
  obtain ⟨r, hr⟩ : ∃ r, PAGE_SIZE - 4 - (i - 4) - 1 = r := ⟨_, rfl⟩
  have h88 : PAGE_SIZE - 4 = (i - 4) + 1 + r := by
    simp only [PAGE_SIZE] at *
    omega
  have hsq : (flipByteBit p i k).checkBytes =
      ((List.range (i - 4)).map (fun t => p.byte (4 + t))) ++
        (p.byte i ^^^ 2 ^ k) ::
        ((List.range r).map (fun t => p.byte (4 + (i - 4 + 1 + t)))) := by
    simp only [Page.checkBytes]
    rw [h88, map_range_decomp]
    congr 1
    · apply List.map_congr_left
      intro t ht
      apply flipByteBit_byte_ne
      have := List.mem_range.mp ht
      omega
    · congr 1
      · rw [show 4 + (i - 4) = i by omega]
        exact flipByteBit_byte_same p i k hk
      · apply List.map_congr_left
        intro t ht
        apply flipByteBit_byte_ne
        omega
  have hsp : p.checkBytes =
      ((List.range (i - 4)).map (fun t => p.byte (4 + t))) ++
        p.byte i :: ((List.range r).map (fun t => p.byte (4 + (i - 4 + 1 + t)))) := by
    simp only [Page.checkBytes]
    rw [h88, map_range_decomp, show 4 + (i - 4) = i from by omega]
  have hmem : ∀ b ∈ (List.range (i - 4)).map (fun t => p.byte (4 + t)), b < 256 := by
    intro b hb
    simp only [List.mem_map] at hb
    obtain ⟨a, -, rfl⟩ := hb
    exact p.byte_lt _
  have hmem2 : ∀ b ∈ (List.range r).map (fun t => p.byte (4 + (i - 4 + 1 + t))),
      b < 256 := by
    intro b hb
    simp only [List.mem_map] at hb
    obtain ⟨a, -, rfl⟩ := hb
    exact p.byte_lt _
  have hcrc : crc32 (flipByteBit p i k).checkBytes ≠ crc32 p.checkBytes := by
    rw [hsq, hsp]
    have hb1 : p.byte i ^^^ 2 ^ k < 256 := by
      have hx : p.byte i ^^^ 2 ^ k < 2 ^ 8 :=
        xor_lt_pow (by have := p.byte_lt i; omega) h2k
      omega
    exact crc32_ne_single hmem hmem2 hb1 (p.byte_lt i) (flip_changes_byte p i k)
  rw [Page.verify_eq_true_iff] at hv
  have hfin : crc32 (flipByteBit p i k).checkBytes ≠ (flipByteBit p i k).read_u32 0 := by
    rw [read_u32_flip p i k hi4, ← hv]
    exact hcrc
  simp only [Page.verify_checksum]
  rw [beq_eq_false_iff_ne]
  exact hfin

theorem Page.new_free_space (pid : PageId) (flags : PageFlags) :
    (Page.new pid flags).free_space = PAGE_SIZE - 32 := by
  simp only [Page.new, Page.free_space]
  rw [Page.read_u16_recompute_of_ge _ (by omega), Page.read_u16_recompute_of_ge _ (by omega),
    Page.read_u16_write_header_upper, Page.read_u16_write_header_lower]
  simp [PageHeader.new, PAGE_SIZE, HEADER_LEN]

/-- C4: a freshly created `Page` verifies and has `free_space = PAGE_SIZE - 32`;
after `write_header` followed by `recompute_checksum` the checksum verifies;
flipping any single bit of any byte in `[4, PAGE_SIZE)` of a verifying page
makes `verify_checksum` return `false`. -/
theorem C4_page_checksum :
    (∀ (pid : PageId) (flags : PageFlags),
      (Page.new pid flags).verify_checksum = true ∧
        (Page.new pid flags).free_space = PAGE_SIZE - 32) ∧
    (∀ (p : Page) (h : PageHeader),
      ((p.write_header h).recompute_checksum).verify_checksum = true) ∧
    (∀ (p : Page) (i k : Nat), p.verify_checksum = true → 4 ≤ i → i < PAGE_SIZE →
      k < 8 → (flipByteBit p i k).verify_checksum = false) :=
  ⟨fun pid flags => ⟨Page.verify_recompute _, Page.new_free_space pid flags⟩,
    fun _ _ => Page.verify_recompute _,
    fun p i k hv h4 hP hk => verify_flip_false p i k hv h4 hP hk⟩

/-- Witness for C4 at a concrete page, index 100, bit 3. -/
theorem C4_page_checksum_witness :
    (Page.new (PageId.new 1 0) PageFlags.Heap).verify_checksum = true ∧
    (flipByteBit ((Page.mk fun _ => 0).write_header
      (PageHeader.new (PageId.new 1 0) PageFlags.Heap)).recompute_checksum
        100 3).verify_checksum = false :=
  ⟨(C4_page_checksum.1 (PageId.new 1 0) PageFlags.Heap).1,
    C4_page_checksum.2.2 _ 100 3
      (C4_page_checksum.2.1 (Page.mk fun _ => 0) (PageHeader.new (PageId.new 1 0) PageFlags.Heap))
      (by decide) (by decide) (by decide)⟩

/-! ## Heap-page lemmas -/

theorem Page.read_u16_lt (p : Page) (off : Nat) : p.read_u16 off < 2 ^ 16 := by
  have h0 := p.byte_lt off
  have h1 := p.byte_lt (off + 1)
  simp only [Page.read_u16]
  omega

theorem Page.header_lower (p : Page) : p.header.lower = p.read_u16 22 := rfl

theorem Page.header_upper (p : Page) : p.header.upper = p.read_u16 24 := rfl

theorem Page.header_reserved_len (p : Page) : p.header.reserved.length = 6 := by
  simp [Page.header, Page.readBytes]

theorem Page.read_u16_write_header_of_ge {off : Nat} (p : Page) (h : PageHeader)
    (hres : h.reserved.length = 6) (h32 : 32 ≤ off) :
    (p.write_header h).read_u16 off = p.read_u16 off := by
  simp only [Page.write_header]
  rw [Page.read_u16_copyTo_of_right _ _ (by rw [List.length_map, hres]; omega),
    Page.read_u16_copyTo_of_right _ _ (by rw [le2_length]; omega),
    Page.read_u16_copyTo_of_right _ _ (by rw [le2_length]; omega),
    Page.read_u16_copyTo_of_right _ _ (by rw [le2_length]; omega),
    Page.read_u16_copyTo_of_right _ _ (by rw [le8_length]; omega),
    Page.read_u16_copyTo_of_right _ _ (by rw [le8_length]; omega),
    Page.read_u16_copyTo_of_right _ _ (by rw [le4_length]; omega)]

theorem map_mod_eq_range (t : List Nat) :
    t.map (· % 256) = (List.range t.length).map (fun j => t.getD j 0 % 256) := by
  apply List.ext_getElem (by simp)
  intro n h1 h2
  simp only [List.getElem_map, List.getElem_range]
  rw [List.getD_eq_getElem?_getD, List.getElem?_eq_getElem (by simpa using h1)]
  rfl

theorem insert_tuple_eq (hp : HeapPage) (t : List Nat)
    (hfit : ¬ (t.length + SLOT_SIZE > hp.page.free_space)) :
    hp.insert_tuple t = .ok
      (⟨((((hp.page.copyTo (hp.page.read_u16 22) t).write_header
          { hp.page.header with lower := hp.page.read_u16 22 + t.length, upper := hp.page.read_u16 24 - SLOT_SIZE }).write_u16
          (PAGE_SIZE - (hp.slot_count + 1) * SLOT_SIZE) (hp.page.read_u16 22)).write_u16
          (PAGE_SIZE - (hp.slot_count + 1) * SLOT_SIZE + 2) t.length).recompute_checksum⟩,
        hp.slot_count) := by
  simp only [HeapPage.insert_tuple]
  rw [if_neg hfit]
  rfl

theorem insert_spec {hp hp' : HeapPage} {t : List Nat} {s : Nat} (hWF : WF hp)
    (he : hp.insert_tuple t = .ok (hp', s)) :
    s = hp.slot_count ∧
    hp'.page.read_u16 22 = hp.page.read_u16 22 + t.length ∧
    hp'.page.read_u16 24 = hp.page.read_u16 24 - 4 ∧
    hp'.slot_count = hp.slot_count + 1 ∧
    WF hp' ∧
    (∀ j, j < hp.slot_count → hp'.read_slot j = hp.read_slot j) ∧
    hp'.read_slot hp.slot_count = ⟨hp.page.read_u16 22, t.length⟩ ∧
    (∀ j, j ≠ hp.slot_count → hp'.read_tuple j = hp.read_tuple j) ∧
    hp'.read_tuple hp.slot_count =
      (if t.length = 0 then none else some (t.map (· % 256))) := by
  obtain ⟨⟨hL32, hLU, hU8, hU4⟩, hSlotLo, hSlotOrd⟩ := hWF
  have hL32' : 32 ≤ hp.page.read_u16 22 := hL32
  have hLU' : hp.page.read_u16 22 ≤ hp.page.read_u16 24 := hLU
  have hU8' : hp.page.read_u16 24 ≤ 8192 := hU8
  have hU4' : hp.page.read_u16 24 % 4 = 0 := hU4
  by_cases hfit : t.length + SLOT_SIZE > hp.page.free_space
  · simp only [HeapPage.insert_tuple, if_pos hfit] at he
    exact absurd he (by simp)
  · rw [insert_tuple_eq hp t hfit] at he
    rw [Except.ok.injEq, Prod.mk.injEq] at he
    obtain ⟨hX, hs⟩ := he
    subst hs
    have hfree : t.length + 4 ≤ hp.page.read_u16 24 - hp.page.read_u16 22 :=
      Nat.le_of_not_lt hfit
    have hULn : hp.page.read_u16 22 + t.length + 4 ≤ hp.page.read_u16 24 := by omega
    have hcnt : hp.slot_count = (8192 - hp.page.read_u16 24) / 4 := rfl
    have hb0 : 8192 - (hp.slot_count + 1) * 4 = hp.page.read_u16 24 - 4 := by
      rw [hcnt]
      omega
    have h22 : hp'.page.read_u16 22 = hp.page.read_u16 22 + t.length := by
      rw [← hX]
      rw [Page.read_u16_recompute_of_ge _ (by omega),
        Page.read_u16_write_u16_of_ne _ _ (Or.inl (by simp only [PAGE_SIZE, SLOT_SIZE]; omega)),
        Page.read_u16_write_u16_of_ne _ _ (Or.inl (by simp only [PAGE_SIZE, SLOT_SIZE]; omega)),
        Page.read_u16_write_header_lower]
      show (hp.page.read_u16 22 + t.length) % 65536 = hp.page.read_u16 22 + t.length
      omega
    have h24 : hp'.page.read_u16 24 = hp.page.read_u16 24 - 4 := by
      rw [← hX]
      rw [Page.read_u16_recompute_of_ge _ (by omega),
        Page.read_u16_write_u16_of_ne _ _ (Or.inl (by simp only [PAGE_SIZE, SLOT_SIZE]; omega)),
        Page.read_u16_write_u16_of_ne _ _ (Or.inl (by simp only [PAGE_SIZE, SLOT_SIZE]; omega)),
        Page.read_u16_write_header_upper]
      show (hp.page.read_u16 24 - SLOT_SIZE) % 65536 = hp.page.read_u16 24 - 4
      simp only [SLOT_SIZE]
      omega
    have hcount : hp'.slot_count = hp.slot_count + 1 := by
      show (PAGE_SIZE - hp'.page.header.upper) / SLOT_SIZE = _
      rw [Page.header_upper, h24]
      simp only [PAGE_SIZE, SLOT_SIZE, hcnt]
      omega
    have hbyteLow : ∀ b, 32 ≤ b → b < hp.page.read_u16 22 →
        hp'.page.byte b = hp.page.byte b := by
      intro b hb1 hb2
      rw [← hX]
      rw [Page.byte_recompute_of_ge _ (by omega),
        Page.byte_write_u16_of_out _ _ (Or.inl (by simp only [PAGE_SIZE, SLOT_SIZE]; omega)),
        Page.byte_write_u16_of_out _ _ (Or.inl (by simp only [PAGE_SIZE, SLOT_SIZE]; omega)),
        Page.byte_write_header_of_ge]
      · exact Page.byte_copyTo_of_lt _ _ hb2
      · exact Page.header_reserved_len hp.page
      · exact hb1
    have hslotU16 : ∀ o, hp.page.read_u16 24 ≤ o → o + 2 ≤ 8192 →
        hp'.page.read_u16 o = hp.page.read_u16 o := by
      intro o ho1 ho2
      rw [← hX]
      rw [Page.read_u16_recompute_of_ge _ (by omega),
        Page.read_u16_write_u16_of_ne _ _ (Or.inr (by simp only [PAGE_SIZE, SLOT_SIZE]; omega)),
        Page.read_u16_write_u16_of_ne _ _ (Or.inr (by simp only [PAGE_SIZE, SLOT_SIZE]; omega)),
        Page.read_u16_write_header_of_ge]
      · exact Page.read_u16_copyTo_of_right _ _ (by omega)
      · exact Page.header_reserved_len hp.page
      · omega
    have hbasej : ∀ j, j < hp.slot_count →
        hp.page.read_u16 24 ≤ 8192 - (j + 1) * 4 ∧ 8192 - (j + 1) * 4 + 4 ≤ 8192 := by
      intro j hj
      rw [hcnt] at hj
      omega
    have hreadslot_old : ∀ j, j < hp.slot_count → hp'.read_slot j = hp.read_slot j := by
      intro j hj
      obtain ⟨hbj1, hbj2⟩ := hbasej j hj
      simp only [HeapPage.read_slot, Page.header_upper, PAGE_SIZE, SLOT_SIZE]
      rw [h24, Nat.max_eq_left (by omega), Nat.max_eq_left (by omega)]
      rw [hslotU16 _ (by omega) (by omega), hslotU16 _ (by omega) (by omega)]
    have hslotNew : hp'.read_slot hp.slot_count =
        ⟨hp.page.read_u16 22, t.length⟩ := by
      simp only [HeapPage.read_slot, Page.header_upper]
      rw [h24, Nat.max_eq_left (by simp only [PAGE_SIZE, SLOT_SIZE]; omega)]
      rw [← hX]
      rw [Slot.mk.injEq]
      constructor
      · rw [Page.read_u16_recompute_of_ge _ (by simp only [PAGE_SIZE, SLOT_SIZE]; omega),
          Page.read_u16_write_u16_of_ne _ _ (Or.inl (by omega)),
          Page.read_u16_write_u16_same]
        have := Page.read_u16_lt hp.page 22
        show hp.page.read_u16 22 % 65536 = hp.page.read_u16 22
        omega
      · rw [Page.read_u16_recompute_of_ge _ (by simp only [PAGE_SIZE, SLOT_SIZE]; omega),
          Page.read_u16_write_u16_same]
        show t.length % 65536 = t.length
        omega
    have hbytesNew : hp'.page.readBytes (hp.page.read_u16 22) t.length =
        t.map (· % 256) := by
      rw [map_mod_eq_range]
      simp only [Page.readBytes]
      apply List.map_congr_left
      intro j hj
      have hjlt := List.mem_range.mp hj
      rw [← hX]
      rw [Page.byte_recompute_of_ge _ (by omega),
        Page.byte_write_u16_of_out _ _ (Or.inl (by simp only [PAGE_SIZE, SLOT_SIZE]; omega)),
        Page.byte_write_u16_of_out _ _ (Or.inl (by simp only [PAGE_SIZE, SLOT_SIZE]; omega)),
        Page.byte_write_header_of_ge]
      · rw [Page.byte_copyTo_of_mem _ _ (by omega) (by omega), Nat.add_sub_cancel_left]
      · exact Page.header_reserved_len hp.page
      · omega
    have hreadtuple_new : hp'.read_tuple hp.slot_count =
        (if t.length = 0 then none else some (t.map (· % 256))) := by
      simp only [HeapPage.read_tuple]
      rw [if_neg (by rw [hcount]; omega), hslotNew]
      by_cases hn0 : t.length = 0
      · rw [if_pos hn0, if_pos hn0]
      · rw [if_neg hn0, if_neg hn0, hbytesNew]
    have hreadtuple_old : ∀ j, j ≠ hp.slot_count → hp'.read_tuple j = hp.read_tuple j := by
      intro j hj
      by_cases hjc : j < hp.slot_count
      · have hLs : hp'.read_tuple j = (if (hp.read_slot j).len = 0 then none
            else some (hp'.page.readBytes (hp.read_slot j).off (hp.read_slot j).len)) := by
          simp only [HeapPage.read_tuple]
          rw [if_neg (show ¬ (j ≥ hp'.slot_count) by rw [hcount]; omega),
            hreadslot_old j hjc]
        have hRs : hp.read_tuple j = (if (hp.read_slot j).len = 0 then none
            else some (hp.page.readBytes (hp.read_slot j).off (hp.read_slot j).len)) := by
          simp only [HeapPage.read_tuple]
          rw [if_neg (show ¬ (j ≥ hp.slot_count) by omega)]
        rw [hLs, hRs]
        by_cases hz : (hp.read_slot j).len = 0
        · rw [if_pos hz, if_pos hz]
        · rw [if_neg hz, if_neg hz]
          obtain ⟨hoff32, hoffend⟩ := hSlotLo j hjc hz
          have hoff32' : 32 ≤ (hp.read_slot j).off := hoff32
          have hoffend' : (hp.read_slot j).off + (hp.read_slot j).len ≤
              hp.page.read_u16 22 := hoffend
          congr 1
          apply Page.readBytes_eq_of_byte_eq
          intro d hd
          apply hbyteLow <;> omega
      · simp only [HeapPage.read_tuple]
        rw [if_pos (show j ≥ hp'.slot_count by rw [hcount]; omega),
          if_pos (show j ≥ hp.slot_count by omega)]
    have hWF2 : WF hp' := by
      refine ⟨⟨?_, ?_, ?_, ?_⟩, ?_, ?_⟩
      · show 32 ≤ hp'.page.read_u16 22
        rw [h22]
        omega
      · show hp'.page.read_u16 22 ≤ hp'.page.read_u16 24
        rw [h22, h24]
        omega
      · show hp'.page.read_u16 24 ≤ 8192
        rw [h24]
        omega
      · show hp'.page.read_u16 24 % 4 = 0
        rw [h24]
        omega
      · intro i hi hlive
        rw [hcount] at hi
        by_cases hic : i < hp.slot_count
        · rw [hreadslot_old i hic] at hlive ⊢
          obtain ⟨ha, hb⟩ := hSlotLo i hic hlive
          have hb' : (hp.read_slot i).off + (hp.read_slot i).len ≤
              hp.page.read_u16 22 := hb
          refine ⟨ha, ?_⟩
          show _ ≤ hp'.page.read_u16 22
          rw [h22]
          omega
        · have hieq : i = hp.slot_count := by omega
          subst hieq
          rw [hslotNew] at hlive ⊢
          refine ⟨hL32', ?_⟩
          show hp.page.read_u16 22 + t.length ≤ hp'.page.read_u16 22
          rw [h22]
      · intro j hj i hij hlivei hlivej
        rw [hcount] at hj
        by_cases hjc : j < hp.slot_count
        · rw [hreadslot_old j hjc] at hlivej ⊢
          rw [hreadslot_old i (by omega)] at hlivei ⊢
          exact hSlotOrd j hjc i hij hlivei hlivej
        · have hjeq : j = hp.slot_count := by omega
          subst hjeq
          rw [hslotNew]
          rw [hreadslot_old i hij] at hlivei ⊢
          exact (hSlotLo i hij hlivei).2
    exact ⟨rfl, h22, h24, hcount, hWF2, hreadslot_old, hslotNew, hreadtuple_old,
      hreadtuple_new⟩

theorem HeapPage.new_empty_read22 (pid : PageId) :
    (HeapPage.new_empty pid).page.read_u16 22 = 32 := by
  show ((Page.new pid PageFlags.Heap).recompute_checksum).read_u16 22 = 32
  rw [Page.read_u16_recompute_of_ge _ (by omega)]
  simp only [Page.new]
  rw [Page.read_u16_recompute_of_ge _ (by omega), Page.read_u16_write_header_lower]
  rfl

theorem HeapPage.new_empty_read24 (pid : PageId) :
    (HeapPage.new_empty pid).page.read_u16 24 = 8192 := by
  show ((Page.new pid PageFlags.Heap).recompute_checksum).read_u16 24 = 8192
  rw [Page.read_u16_recompute_of_ge _ (by omega)]
  simp only [Page.new]
  rw [Page.read_u16_recompute_of_ge _ (by omega), Page.read_u16_write_header_upper]
  rfl

theorem HeapPage.new_empty_slot_count (pid : PageId) :
    (HeapPage.new_empty pid).slot_count = 0 := by
  show (PAGE_SIZE - (HeapPage.new_empty pid).page.header.upper) / SLOT_SIZE = 0
  rw [Page.header_upper, HeapPage.new_empty_read24]
  rfl

theorem WF_new_empty (pid : PageId) : WF (HeapPage.new_empty pid) := by
  have h22 := HeapPage.new_empty_read22 pid
  have h24 := HeapPage.new_empty_read24 pid
  have hc := HeapPage.new_empty_slot_count pid
  refine ⟨⟨?_, ?_, ?_, ?_⟩, ?_, ?_⟩
  · show 32 ≤ (HeapPage.new_empty pid).page.read_u16 22
    omega
  · show (HeapPage.new_empty pid).page.read_u16 22 ≤
      (HeapPage.new_empty pid).page.read_u16 24
    omega
  · show (HeapPage.new_empty pid).page.read_u16 24 ≤ 8192
    omega
  · show (HeapPage.new_empty pid).page.read_u16 24 % 4 = 0
    omega
  · intro i hi
    rw [hc] at hi
    omega
  · intro j hj
    rw [hc] at hj
    omega

theorem insert_ok_iff (hp : HeapPage) (t : List Nat) :
    (hp.insert_tuple t).isOk = true ↔ t.length + 4 ≤ hp.page.free_space := by
  simp only [HeapPage.insert_tuple]
  by_cases h : t.length + SLOT_SIZE > hp.page.free_space
  · rw [if_pos h]
    simp only [Except.isOk, Except.toBool]
    constructor
    · intro hfalse
      exact absurd hfalse (by simp)
    · intro hle
      exact absurd hle (by simp only [SLOT_SIZE] at h; omega)
  · rw [if_neg h]
    simp only [Except.isOk, Except.toBool]
    constructor
    · intro _
      simp only [SLOT_SIZE] at h
      omega
    · intro _
      trivial

theorem delete_tuple_eq_err (hp : HeapPage) (slot_no : Nat)
    (hd : slot_no ≥ hp.slot_count) :
    hp.delete_tuple slot_no = .error "slot out of range" := by
  simp only [HeapPage.delete_tuple]
  rw [if_pos hd]

theorem delete_tuple_eq_dead (hp : HeapPage) (slot_no : Nat)
    (hd : ¬ (slot_no ≥ hp.slot_count)) (hz : (hp.read_slot slot_no).len = 0) :
    hp.delete_tuple slot_no = .ok hp := by
  simp only [HeapPage.delete_tuple]
  rw [if_neg hd, if_pos hz]

theorem delete_tuple_eq_live (hp : HeapPage) (slot_no : Nat)
    (hd : ¬ (slot_no ≥ hp.slot_count)) (hz : ¬ ((hp.read_slot slot_no).len = 0)) :
    hp.delete_tuple slot_no = .ok
      ⟨((hp.page.write_u16 (PAGE_SIZE - (slot_no + 1) * SLOT_SIZE)
          (hp.read_slot slot_no).off).write_u16
          (PAGE_SIZE - (slot_no + 1) * SLOT_SIZE + 2) 0).recompute_checksum⟩ := by
  simp only [HeapPage.delete_tuple]
  rw [if_neg hd, if_neg hz]
  rfl

theorem read_slot_off_lt (hp : HeapPage) (i : Nat) :
    (hp.read_slot i).off < 2 ^ 16 := by
  simp only [HeapPage.read_slot]
  exact Page.read_u16_lt _ _

theorem read_slot_len_lt (hp : HeapPage) (i : Nat) :
    (hp.read_slot i).len < 2 ^ 16 := by
  simp only [HeapPage.read_slot]
  exact Page.read_u16_lt _ _

theorem HeapPage.read_slot_eq (hp : HeapPage) (i : Nat)
    (h : hp.page.header.upper ≤ PAGE_SIZE - (i + 1) * SLOT_SIZE) :
    hp.read_slot i = ⟨hp.page.read_u16 (PAGE_SIZE - (i + 1) * SLOT_SIZE),
      hp.page.read_u16 (PAGE_SIZE - (i + 1) * SLOT_SIZE + 2)⟩ := by
  simp only [HeapPage.read_slot]
  rw [Nat.max_eq_left h]

theorem delete_spec {hp : HeapPage} {slot_no : Nat} (hWF : WF hp)
    (hd : slot_no < hp.slot_count) (hz : (hp.read_slot slot_no).len ≠ 0) :
    ∃ hp', hp.delete_tuple slot_no = .ok hp' ∧
      hp'.page.read_u16 22 = hp.page.read_u16 22 ∧
      hp'.page.read_u16 24 = hp.page.read_u16 24 ∧
      hp'.slot_count = hp.slot_count ∧
      WF hp' ∧
      hp'.read_slot slot_no = ⟨(hp.read_slot slot_no).off, 0⟩ ∧
      hp'.read_tuple slot_no = none ∧
      (∀ j, j ≠ slot_no → hp'.read_tuple j = hp.read_tuple j) := by
  obtain ⟨⟨hL32, hLU, hU8, hU4⟩, hSlotLo, hSlotOrd⟩ := hWF
  have hL32' : 32 ≤ hp.page.read_u16 22 := hL32
  have hLU' : hp.page.read_u16 22 ≤ hp.page.read_u16 24 := hLU
  have hU8' : hp.page.read_u16 24 ≤ 8192 := hU8
  have hU4' : hp.page.read_u16 24 % 4 = 0 := hU4
  have hcnt : hp.slot_count = (8192 - hp.page.read_u16 24) / 4 := rfl
  rw [hcnt] at hd
  refine ⟨_, delete_tuple_eq_live hp slot_no (by rw [hcnt]; omega) hz, ?_⟩
  have hbU : hp.page.read_u16 24 ≤ 8192 - (slot_no + 1) * 4 := by omega
  have h22 : (⟨((hp.page.write_u16 (PAGE_SIZE - (slot_no + 1) * SLOT_SIZE)
      (hp.read_slot slot_no).off).write_u16
      (PAGE_SIZE - (slot_no + 1) * SLOT_SIZE + 2) 0).recompute_checksum⟩ :
        HeapPage).page.read_u16 22 = hp.page.read_u16 22 := by
    rw [Page.read_u16_recompute_of_ge _ (by omega),
      Page.read_u16_write_u16_of_ne _ _ (Or.inl (by simp only [PAGE_SIZE, SLOT_SIZE]; omega)),
      Page.read_u16_write_u16_of_ne _ _ (Or.inl (by simp only [PAGE_SIZE, SLOT_SIZE]; omega))]
  have h24 : (⟨((hp.page.write_u16 (PAGE_SIZE - (slot_no + 1) * SLOT_SIZE)
      (hp.read_slot slot_no).off).write_u16
      (PAGE_SIZE - (slot_no + 1) * SLOT_SIZE + 2) 0).recompute_checksum⟩ :
        HeapPage).page.read_u16 24 = hp.page.read_u16 24 := by
    rw [Page.read_u16_recompute_of_ge _ (by omega),
      Page.read_u16_write_u16_of_ne _ _ (Or.inl (by simp only [PAGE_SIZE, SLOT_SIZE]; omega)),
      Page.read_u16_write_u16_of_ne _ _ (Or.inl (by simp only [PAGE_SIZE, SLOT_SIZE]; omega))]
  have hcount : (⟨((hp.page.write_u16 (PAGE_SIZE - (slot_no + 1) * SLOT_SIZE)
      (hp.read_slot slot_no).off).write_u16
      (PAGE_SIZE - (slot_no + 1) * SLOT_SIZE + 2) 0).recompute_checksum⟩ :
        HeapPage).slot_count = hp.slot_count := by
    show (PAGE_SIZE - _) / SLOT_SIZE = _
    rw [Page.header_upper, h24]
    rfl
  have hbyteLow : ∀ b, 4 ≤ b → b < hp.page.read_u16 24 →
      (((hp.page.write_u16 (PAGE_SIZE - (slot_no + 1) * SLOT_SIZE)
        (hp.read_slot slot_no).off).write_u16
        (PAGE_SIZE - (slot_no + 1) * SLOT_SIZE + 2) 0).recompute_checksum).byte b =
        hp.page.byte b := by
    intro b hb1 hb2
    rw [Page.byte_recompute_of_ge _ (by omega),
      Page.byte_write_u16_of_out _ _ (Or.inl (by simp only [PAGE_SIZE, SLOT_SIZE]; omega)),
      Page.byte_write_u16_of_out _ _ (Or.inl (by simp only [PAGE_SIZE, SLOT_SIZE]; omega))]
  have hslotU16 : ∀ j, j < hp.slot_count → j ≠ slot_no →
      (((hp.page.write_u16 (PAGE_SIZE - (slot_no + 1) * SLOT_SIZE)
        (hp.read_slot slot_no).off).write_u16
        (PAGE_SIZE - (slot_no + 1) * SLOT_SIZE + 2) 0).recompute_checksum).read_u16
        (PAGE_SIZE - (j + 1) * SLOT_SIZE) =
        hp.page.read_u16 (PAGE_SIZE - (j + 1) * SLOT_SIZE) ∧
      (((hp.page.write_u16 (PAGE_SIZE - (slot_no + 1) * SLOT_SIZE)
        (hp.read_slot slot_no).off).write_u16
        (PAGE_SIZE - (slot_no + 1) * SLOT_SIZE + 2) 0).recompute_checksum).read_u16
        (PAGE_SIZE - (j + 1) * SLOT_SIZE + 2) =
        hp.page.read_u16 (PAGE_SIZE - (j + 1) * SLOT_SIZE + 2) := by
    intro j hj hne
    rw [hcnt] at hj
    constructor
    · rw [Page.read_u16_recompute_of_ge _ (by simp only [PAGE_SIZE, SLOT_SIZE]; omega)]
      by_cases hlt : j < slot_no
      · rw [Page.read_u16_write_u16_of_ne _ _
          (Or.inr (by simp only [PAGE_SIZE, SLOT_SIZE]; omega)),
          Page.read_u16_write_u16_of_ne _ _
          (Or.inr (by simp only [PAGE_SIZE, SLOT_SIZE]; omega))]
      · rw [Page.read_u16_write_u16_of_ne _ _
          (Or.inl (by simp only [PAGE_SIZE, SLOT_SIZE]; omega)),
          Page.read_u16_write_u16_of_ne _ _
          (Or.inl (by simp only [PAGE_SIZE, SLOT_SIZE]; omega))]
    · rw [Page.read_u16_recompute_of_ge _ (by simp only [PAGE_SIZE, SLOT_SIZE]; omega)]
      by_cases hlt : j < slot_no
      · rw [Page.read_u16_write_u16_of_ne _ _
          (Or.inr (by simp only [PAGE_SIZE, SLOT_SIZE]; omega)),
          Page.read_u16_write_u16_of_ne _ _
          (Or.inr (by simp only [PAGE_SIZE, SLOT_SIZE]; omega))]
      · rw [Page.read_u16_write_u16_of_ne _ _
          (Or.inl (by simp only [PAGE_SIZE, SLOT_SIZE]; omega)),
          Page.read_u16_write_u16_of_ne _ _
          (Or.inl (by simp only [PAGE_SIZE, SLOT_SIZE]; omega))]
  have hslotSame : (⟨((hp.page.write_u16 (PAGE_SIZE - (slot_no + 1) * SLOT_SIZE)
      (hp.read_slot slot_no).off).write_u16
      (PAGE_SIZE - (slot_no + 1) * SLOT_SIZE + 2) 0).recompute_checksum⟩ :
        HeapPage).read_slot slot_no = ⟨(hp.read_slot slot_no).off, 0⟩ := by
    rw [HeapPage.read_slot_eq _ _
      (by rw [Page.header_upper, h24]; simp only [PAGE_SIZE, SLOT_SIZE]; omega)]
    rw [Slot.mk.injEq]
    constructor
    · rw [Page.read_u16_recompute_of_ge _ (by simp only [PAGE_SIZE, SLOT_SIZE]; omega),
        Page.read_u16_write_u16_of_ne _ _ (Or.inl (by omega)),
        Page.read_u16_write_u16_same]
      have := read_slot_off_lt hp slot_no
      show (hp.read_slot slot_no).off % 65536 = (hp.read_slot slot_no).off
      omega
    · rw [Page.read_u16_recompute_of_ge _ (by simp only [PAGE_SIZE, SLOT_SIZE]; omega),
        Page.read_u16_write_u16_same]
      rfl
  have hreadslot_old : ∀ j, j < hp.slot_count → j ≠ slot_no →
      (⟨((hp.page.write_u16 (PAGE_SIZE - (slot_no + 1) * SLOT_SIZE)
        (hp.read_slot slot_no).off).write_u16
        (PAGE_SIZE - (slot_no + 1) * SLOT_SIZE + 2) 0).recompute_checksum⟩ :
          HeapPage).read_slot j = hp.read_slot j := by
    intro j hj hne
    have hj' := hj
    rw [hcnt] at hj'
    obtain ⟨e1, e2⟩ := hslotU16 j hj hne
    rw [HeapPage.read_slot_eq _ _
      (by rw [Page.header_upper, h24]; simp only [PAGE_SIZE, SLOT_SIZE]; omega)]
    rw [HeapPage.read_slot_eq hp j
      (by rw [Page.header_upper]; simp only [PAGE_SIZE, SLOT_SIZE]; omega)]
    rw [Slot.mk.injEq]
    exact ⟨e1, e2⟩
  have htupNone : (⟨((hp.page.write_u16 (PAGE_SIZE - (slot_no + 1) * SLOT_SIZE)
      (hp.read_slot slot_no).off).write_u16
      (PAGE_SIZE - (slot_no + 1) * SLOT_SIZE + 2) 0).recompute_checksum⟩ :
        HeapPage).read_tuple slot_no = none := by
    simp only [HeapPage.read_tuple]
    rw [if_neg (show ¬ (slot_no ≥ _) by rw [hcount, hcnt]; omega), hslotSame]
    rfl
  have htupOld : ∀ j, j ≠ slot_no →
      (⟨((hp.page.write_u16 (PAGE_SIZE - (slot_no + 1) * SLOT_SIZE)
        (hp.read_slot slot_no).off).write_u16
        (PAGE_SIZE - (slot_no + 1) * SLOT_SIZE + 2) 0).recompute_checksum⟩ :
          HeapPage).read_tuple j = hp.read_tuple j := by
    intro j hne
    by_cases hjc : j < hp.slot_count
    · have hLs : (⟨((hp.page.write_u16 (PAGE_SIZE - (slot_no + 1) * SLOT_SIZE)
          (hp.read_slot slot_no).off).write_u16
          (PAGE_SIZE - (slot_no + 1) * SLOT_SIZE + 2) 0).recompute_checksum⟩ :
            HeapPage).read_tuple j = (if (hp.read_slot j).len = 0 then none
          else some ((((hp.page.write_u16 (PAGE_SIZE - (slot_no + 1) * SLOT_SIZE)
            (hp.read_slot slot_no).off).write_u16
            (PAGE_SIZE - (slot_no + 1) * SLOT_SIZE + 2) 0).recompute_checksum).readBytes
            (hp.read_slot j).off (hp.read_slot j).len)) := by
        simp only [HeapPage.read_tuple]
        rw [if_neg (show ¬ (j ≥ _) by rw [hcount, hcnt]; omega),
          hreadslot_old j hjc hne]
      have hRs : hp.read_tuple j = (if (hp.read_slot j).len = 0 then none
          else some (hp.page.readBytes (hp.read_slot j).off (hp.read_slot j).len)) := by
        simp only [HeapPage.read_tuple]
        rw [if_neg (show ¬ (j ≥ hp.slot_count) by omega)]
      rw [hLs, hRs]
      by_cases hzj : (hp.read_slot j).len = 0
      · rw [if_pos hzj, if_pos hzj]
      · rw [if_neg hzj, if_neg hzj]
        obtain ⟨ho32, hoend⟩ := hSlotLo j hjc hzj
        have ho32' : 32 ≤ (hp.read_slot j).off := ho32
        have hoend' : (hp.read_slot j).off + (hp.read_slot j).len ≤
            hp.page.read_u16 22 := hoend
        congr 1
        apply Page.readBytes_eq_of_byte_eq
        intro dd hdd
        apply hbyteLow <;> omega
    · simp only [HeapPage.read_tuple]
      rw [if_pos (show j ≥ _ by rw [hcount, hcnt]; omega),
        if_pos (show j ≥ hp.slot_count by omega)]
  have hWF2 : WF (⟨((hp.page.write_u16 (PAGE_SIZE - (slot_no + 1) * SLOT_SIZE)
      (hp.read_slot slot_no).off).write_u16
      (PAGE_SIZE - (slot_no + 1) * SLOT_SIZE + 2) 0).recompute_checksum⟩ :
        HeapPage) := by
    refine ⟨⟨?_, ?_, ?_, ?_⟩, ?_, ?_⟩
    · rw [Page.header_lower, h22]
      exact hL32'
    · rw [Page.header_lower, Page.header_upper, h22, h24]
      exact hLU'
    · rw [Page.header_upper, h24]
      exact hU8'
    · rw [Page.header_upper, h24]
      exact hU4'
    · intro i hi hlive
      rw [hcount] at hi
      by_cases hie : i = slot_no
      · subst hie
        rw [hslotSame] at hlive
        exact absurd rfl hlive
      · rw [hreadslot_old i hi hie] at hlive ⊢
        obtain ⟨ha, hb⟩ := hSlotLo i hi hlive
        refine ⟨ha, ?_⟩
        rw [Page.header_lower, h22]
        exact hb
    · intro j hj i hij hlivei hlivej
      rw [hcount] at hj
      by_cases hje : j = slot_no
      · subst hje
        rw [hslotSame] at hlivej
        exact absurd rfl hlivej
      · by_cases hie : i = slot_no
        · subst hie
          rw [hslotSame] at hlivei
          exact absurd rfl hlivei
        · rw [hreadslot_old j hj hje] at hlivej ⊢
          rw [hreadslot_old i (by omega) hie] at hlivei ⊢
          exact hSlotOrd j hj i hij hlivei hlivej
  exact ⟨h22, h24, hcount, hWF2, hslotSame, htupNone, htupOld⟩

theorem insertSeq_good : ∀ (ts : List (List Nat)) (hp : HeapPage) (σ : List (List Nat))
    (hWF : WF hp) (hcnt : hp.slot_count = σ.length)
    (hread : ∀ i, i < σ.length → hp.read_tuple i =
      (if (σ.getD i []).length = 0 then none else some ((σ.getD i []).map (· % 256))))
    {hp2 : HeapPage} {slots : List Nat},
    insertSeq hp ts = .ok (hp2, slots) →
    slots = (List.range ts.length).map (σ.length + ·) ∧
    WF hp2 ∧ hp2.slot_count = σ.length + ts.length ∧
    ∀ i, i < σ.length + ts.length → hp2.read_tuple i =
      (if ((σ ++ ts).getD i []).length = 0 then none
        else some (((σ ++ ts).getD i []).map (· % 256))) := by
  intro ts
  induction ts with
  | nil =>
    intro hp σ hWF hcnt hread hp2 slots he
    simp only [insertSeq] at he
    rw [Except.ok.injEq, Prod.mk.injEq] at he
    obtain ⟨h1, h2⟩ := he
    subst h1
    subst h2
    refine ⟨by simp, hWF, by simpa using hcnt, ?_⟩
    intro i hi
    simp only [List.append_nil]
    exact hread i (by simpa using hi)
  | cons t ts ih =>
    intro hp σ hWF hcnt hread hp2 slots he
    simp only [insertSeq] at he
    split at he
    case _ heq => exact absurd he (by simp)
    case _ hp1 s heq =>
      split at he
      case _ heq2 => exact absurd he (by simp)
      case _ hpF ss heq2 =>
        rw [Except.ok.injEq, Prod.mk.injEq] at he
        obtain ⟨h1, h2⟩ := he
        subst h1
        subst h2
        obtain ⟨hs, h22, h24, hcnt1, hWF1, hrsold, hrsnew, hrtold, hrtnew⟩ :=
          insert_spec hWF heq
        subst hs
        have hcnt1' : hp1.slot_count = (σ ++ [t]).length := by
          rw [hcnt1, hcnt]
          simp
        have hread1 : ∀ i, i < (σ ++ [t]).length → hp1.read_tuple i =
            (if ((σ ++ [t]).getD i []).length = 0 then none
              else some (((σ ++ [t]).getD i []).map (· % 256))) := by
          intro i hi
          simp only [List.length_append, List.length_cons, List.length_nil] at hi
          by_cases hilt : i < σ.length
          · rw [hrtold i (by omega), hread i hilt,
              List.getD_append _ _ _ _ (by omega)]
          · have hieq : i = σ.length := by omega
            subst hieq
            have hgd : (σ ++ [t]).getD σ.length [] = t := by
              rw [List.getD_append_right _ _ _ _ (le_refl _)]
              simp
            rw [hgd, ← hcnt]
            exact hrtnew
        obtain ⟨hss, hWF2, hcnt2, hread2⟩ := ih hp1 (σ ++ [t]) hWF1 hcnt1' hread1 heq2
        have hlen1 : (σ ++ [t]).length = σ.length + 1 := by simp
        rw [hlen1] at hss hcnt2 hread2
        refine ⟨?_, hWF2, ?_, ?_⟩
        · rw [hss, hcnt, List.length_cons, List.range_succ_eq_map, List.map_cons,
            List.map_map]
          congr 1
          apply List.map_congr_left
          intro a _
          simp only [Function.comp]
          omega
        · rw [hcnt2, List.length_cons]
          omega
        · intro i hi
          rw [List.length_cons] at hi
          have hres := hread2 i (by omega)
          rw [hres]
          have hassoc : σ ++ [t] ++ ts = σ ++ t :: ts := by simp
          rw [hassoc]

/-- C1 (amended): `insert_tuple` fails exactly when `bytes.len() + 4 >
free_space()`; for every sequence of successful inserts starting from
`new_empty`, the returned slot numbers are `0, 1, 2, …` in call order, and
afterwards `read_tuple(i)` returns exactly the bytes passed to the `i`-th
insert when those bytes are nonempty, and `None` when the `i`-th insert was
a zero-length tuple. -/
theorem C1_insert_sequence :
    (∀ (hp : HeapPage) (t : List Nat),
      (hp.insert_tuple t).isOk = true ↔ t.length + 4 ≤ hp.page.free_space) ∧
    (∀ (pid : PageId) (ts : List (List Nat)) (hp2 : HeapPage) (slots : List Nat),
      insertSeq (HeapPage.new_empty pid) ts = .ok (hp2, slots) →
      slots = List.range ts.length ∧
      (∀ i, i < ts.length → (ts.getD i []).length ≠ 0 →
        (∀ b ∈ ts.getD i [], b < 256) → hp2.read_tuple i = some (ts.getD i [])) ∧
      (∀ i, i < ts.length → (ts.getD i []).length = 0 →
        hp2.read_tuple i = none)) := by
  refine ⟨insert_ok_iff, ?_⟩
  intro pid ts hp2 slots he
  obtain ⟨hss, hWF2, hcnt2, hread2⟩ := insertSeq_good ts (HeapPage.new_empty pid) []
    (WF_new_empty pid) (by rw [HeapPage.new_empty_slot_count]; rfl)
    (by intro i hi; simp at hi) he
  refine ⟨?_, ?_, ?_⟩
  · rw [hss]
    simp
  · intro i hi hne hbytes
    have hr := hread2 i (by simpa using hi)
    simp only [List.nil_append] at hr
    rw [hr, if_neg hne]
    congr 1
    calc (ts.getD i []).map (· % 256) = (ts.getD i []).map id := by
          apply List.map_congr_left
          intro b hb
          exact Nat.mod_eq_of_lt (hbytes b hb)
      _ = ts.getD i [] := List.map_id _
  · intro i hi hz
    have hr := hread2 i (by simpa using hi)
    simp only [List.nil_append] at hr
    rw [hr, if_pos hz]

/-- C1 counterexample: a zero-length insert succeeds (4 bytes of free space
suffice) and returns slot 0, but `read_tuple 0` then returns `None`, not
`Some` of the inserted (empty) byte string. -/
theorem C1_empty_insert_cex :
    (exceptOk ((HeapPage.new_empty (PageId.new 1 0)).insert_tuple [])).map
      (fun r => (r.2, r.1.read_tuple 0)) = some (0, none) ∧
    some ((0 : Nat), (none : Option (List Nat))) ≠ some (0, some []) := by
  constructor
  · decide
  · decide

/-- Witness for C1 at the concrete sequence `[[1,2],[3]]`. -/
theorem C1_insert_sequence_witness :
    (exceptOk (insertSeq (HeapPage.new_empty (PageId.new 1 0)) [[1, 2], [3]])).map
      (fun r => (r.2, r.1.read_tuple 0, r.1.read_tuple 1)) =
      some ([0, 1], some [1, 2], some [3]) := by
  cases hseq : insertSeq (HeapPage.new_empty (PageId.new 1 0)) [[1, 2], [3]] with
  | error e =>
    have hok : (insertSeq (HeapPage.new_empty (PageId.new 1 0)) [[1, 2], [3]]).isOk
        = true := by decide
    rw [hseq] at hok
    exact absurd hok (by simp [Except.isOk, Except.toBool])
  | ok r =>
    obtain ⟨hp2, slots⟩ := r
    obtain ⟨hslots, hsome, -⟩ :=
      C1_insert_sequence.2 (PageId.new 1 0) [[1, 2], [3]] hp2 slots hseq
    simp only [exceptOk, Option.map]
    rw [hslots, hsome 0 (by decide) (by decide) (by decide),
      hsome 1 (by decide) (by decide) (by decide)]
    rfl

/-- C10: `insert_tuple` accepts a zero-length tuple whenever at least 4
bytes are free; it consumes one slot-directory entry, and `read_tuple` on
the returned slot yields `None`, indistinguishable from a tombstone. -/
theorem C10_zero_length_insert :
    (∀ hp : HeapPage, ((hp.insert_tuple []).isOk = true ↔ 4 ≤ hp.page.free_space)) ∧
    (∀ (hp hp' : HeapPage) (s : Nat), WF hp → hp.insert_tuple [] = .ok (hp', s) →
      hp'.slot_count = hp.slot_count + 1 ∧ hp'.read_tuple s = none) := by
  constructor
  · intro hp
    simpa using insert_ok_iff hp []
  · intro hp hp' s hWF he
    obtain ⟨hs, h22, h24, hcnt1, hWF1, hrsold, hrsnew, hrtold, hrtnew⟩ :=
      insert_spec hWF he
    subst hs
    exact ⟨hcnt1, by rw [hrtnew]; rfl⟩

/-- Witness for C10 at a freshly created heap page. -/
theorem C10_zero_length_insert_witness :
    (exceptOk ((HeapPage.new_empty (PageId.new 2 0)).insert_tuple [])).map
      (fun r => (r.1.slot_count, r.1.read_tuple r.2)) = some (1, none) := by
  cases hseq : (HeapPage.new_empty (PageId.new 2 0)).insert_tuple [] with
  | error e =>
    have hok : ((HeapPage.new_empty (PageId.new 2 0)).insert_tuple []).isOk = true :=
      (C10_zero_length_insert.1 _).mpr (by decide)
    rw [hseq] at hok
    exact absurd hok (by simp [Except.isOk, Except.toBool])
  | ok r =>
    obtain ⟨hp', s⟩ := r
    obtain ⟨hc, hn⟩ := C10_zero_length_insert.2 (HeapPage.new_empty (PageId.new 2 0))
      hp' s (WF_new_empty _) hseq
    simp only [exceptOk, Option.map]
    rw [hc, hn, HeapPage.new_empty_slot_count]

/-- C8: `delete_tuple(slot_no)` fails exactly when `slot_no ≥ slot_count`;
on a live slot it zeroes the slot's `len` preserving its `off`, after which
`read_tuple(slot_no) = None` while every other slot's `read_tuple` is
unchanged; on an already-dead slot it succeeds and returns the page
unchanged. -/
theorem C8_delete_tuple :
    (∀ (hp : HeapPage) (slot_no : Nat),
      ((hp.delete_tuple slot_no).isOk = false ↔ hp.slot_count ≤ slot_no)) ∧
    (∀ (hp : HeapPage) (slot_no : Nat), slot_no < hp.slot_count →
      (hp.read_slot slot_no).len = 0 → hp.delete_tuple slot_no = .ok hp) ∧
    (∀ (hp : HeapPage) (slot_no : Nat), WF hp → slot_no < hp.slot_count →
      (hp.read_slot slot_no).len ≠ 0 →
      ∃ hp', hp.delete_tuple slot_no = .ok hp' ∧
        (hp'.read_slot slot_no).off = (hp.read_slot slot_no).off ∧
        (hp'.read_slot slot_no).len = 0 ∧
        hp'.read_tuple slot_no = none ∧
        (∀ j, j ≠ slot_no → hp'.read_tuple j = hp.read_tuple j)) := by
  refine ⟨?_, ?_, ?_⟩
  · intro hp slot_no
    by_cases hge : slot_no ≥ hp.slot_count
    · rw [delete_tuple_eq_err hp slot_no hge]
      simp only [Except.isOk, Except.toBool]
      exact ⟨fun _ => hge, fun _ => trivial⟩
    · by_cases hz : (hp.read_slot slot_no).len = 0
      · rw [delete_tuple_eq_dead hp slot_no hge hz]
        simp only [Except.isOk, Except.toBool]
        constructor
        · intro hfalse
          exact absurd hfalse (by simp)
        · intro hle
          exact absurd hle hge
      · rw [delete_tuple_eq_live hp slot_no hge hz]
        simp only [Except.isOk, Except.toBool]
        constructor
        · intro hfalse
          exact absurd hfalse (by simp)
        · intro hle
          exact absurd hle hge
  · intro hp slot_no hlt hz
    exact delete_tuple_eq_dead hp slot_no (by omega) hz
  · intro hp slot_no hWF hlt hz
    obtain ⟨hp', he, h22, h24, hcount, hWF2, hslot, hnone, hothers⟩ :=
      delete_spec hWF hlt hz
    exact ⟨hp', he, by rw [hslot], by rw [hslot], hnone, hothers⟩

/-- Witness for C8: insert a live tuple on a fresh page, then delete slot 0. -/
theorem C8_delete_tuple_witness :
    ((exceptOk ((HeapPage.new_empty (PageId.new 1 0)).insert_tuple [7, 8])).bind
      (fun r => (exceptOk (r.1.delete_tuple 0)).map
        (fun hp2 => (hp2.read_tuple 0, hp2.read_tuple 1)))) =
      some (none, none) := by
  cases hins : (HeapPage.new_empty (PageId.new 1 0)).insert_tuple [7, 8] with
  | error e =>
    have hok : ((HeapPage.new_empty (PageId.new 1 0)).insert_tuple [7, 8]).isOk
        = true := by decide
    rw [hins] at hok
    exact absurd hok (by simp [Except.isOk, Except.toBool])
  | ok r =>
    obtain ⟨hp1, s⟩ := r
    obtain ⟨hs, h22, h24, hcnt1, hWF1, hrsold, hrsnew, hrtold, hrtnew⟩ :=
      insert_spec (WF_new_empty (PageId.new 1 0)) hins
    have hcnt0 : (HeapPage.new_empty (PageId.new 1 0)).slot_count = 0 :=
      HeapPage.new_empty_slot_count _
    have hlive : (hp1.read_slot 0).len ≠ 0 := by
      rw [show (0 : Nat) = (HeapPage.new_empty (PageId.new 1 0)).slot_count
        from hcnt0.symm, hrsnew]
      decide
    obtain ⟨hp2, hdel, hoff, hlen0, hnone, hothers⟩ :=
      C8_delete_tuple.2.2 hp1 0 hWF1 (by omega) hlive
    simp only [exceptOk, Option.bind, Option.map]
    rw [hdel]
    simp only [exceptOk]
    rw [hnone, hothers 1 (by decide)]
    rw [hrtold 1 (by rw [hcnt0]; decide)]
    have h1none : (HeapPage.new_empty (PageId.new 1 0)).read_tuple 1 = none := by
      decide
    rw [h1none]

theorem extractExprs_eq_filterMap (l : List SelectItem)
    (h : l.any SelectItem.is_wildcard = false) :
    extractExprs l = .ok (l.filterMap fun it =>
      match it with
      | .Expr e _ => some e
      | .Wildcard => none) := by
  induction l with
  | nil => rfl
  | cons it rest ih =>
    cases it with
    | Wildcard => simp [SelectItem.is_wildcard] at h
    | Expr e a =>
      simp only [List.any_cons, Bool.or_eq_false_iff] at h
      simp only [extractExprs, ih h.2, List.filterMap_cons]

/-- C9: planning a `Select` fails with the SELECT-without-FROM error when
`from` is absent; otherwise the plan is a `SeqScan` of the named table with
the stub schema, wrapped by `Filter` exactly when a WHERE clause is present,
wrapped by a `Projection` of the select-list expressions in order exactly
when no select item is a wildcard, and wrapped outermost by `Limit` exactly
when LIMIT is present — i.e. the planner agrees with the spec-side lowering
`planSpec`. -/
theorem C9_planner_lowering (stmt : Statement) :
    QueryPlanner.plan stmt = planSpec stmt := by
  obtain ⟨sel⟩ := stmt
  obtain ⟨items, fromT, whereC, limitC⟩ := sel
  cases fromT with
  | none => rfl
  | some t =>
    by_cases hw : items.any SelectItem.is_wildcard = true
    · simp only [QueryPlanner.plan, plan_select, planSpec, get_table_schema, hw,
        if_true]
    · have hw' : items.any SelectItem.is_wildcard = false := by
        simpa using hw
      simp only [QueryPlanner.plan, plan_select, planSpec, get_table_schema, hw',
        extractExprs_eq_filterMap items hw', Bool.false_eq_true, if_false]

/-- C6 counterexample: a select list mixing `*` with an explicit expression
is planned successfully (no error), contradicting the claim that it is
rejected. -/
theorem C6_mixed_wildcard_cex :
    plan_select ⟨[SelectItem.Wildcard, SelectItem.Expr (Expression.Column "id") none],
      some "t", none, none⟩ =
      .ok (PhysicalPlan.SeqScan "t"
        ⟨[⟨"id", DataType.Integer, false⟩, ⟨"name", DataType.Varchar 255, true⟩]⟩) := by
  rfl

/-- C6 (amended): a select list containing a `Wildcard` — even mixed with
explicit expression items — is not rejected: it is planned exactly like a
pure `SELECT *` list (no `Projection` node is added). -/
theorem C6_mixed_wildcard :
    ∀ sel : SelectStatement, SelectItem.Wildcard ∈ sel.select_list →
      plan_select sel =
        plan_select ⟨[SelectItem.Wildcard], sel.fromTable, sel.where_clause, sel.limit⟩ ∧
      (sel.fromTable ≠ none → (plan_select sel).isOk = true) := by
  intro sel hmem
  obtain ⟨items, fromT, whereC, limitC⟩ := sel
  have hany : items.any SelectItem.is_wildcard = true := by
    rw [List.any_eq_true]
    exact ⟨SelectItem.Wildcard, hmem, rfl⟩
  constructor
  · cases fromT with
    | none => rfl
    | some t =>
      simp only [plan_select, get_table_schema, hany, if_true]
      cases whereC <;> cases limitC <;> rfl
  · intro hsome
    cases fromT with
    | none => exact absurd rfl hsome
    | some t =>
      simp only [plan_select, get_table_schema, hany, if_true]
      cases limitC <;> rfl

/-- Witness for C6 at the concrete mixed list `[*, id]`. -/
theorem C6_mixed_wildcard_witness :
    plan_select ⟨[SelectItem.Wildcard, SelectItem.Expr (Expression.Column "id") none],
        some "t", none, none⟩ =
      plan_select ⟨[SelectItem.Wildcard], some "t", none, none⟩ ∧
    (plan_select ⟨[SelectItem.Wildcard, SelectItem.Expr (Expression.Column "id") none],
        some "t", none, none⟩).isOk = true := by
  obtain ⟨h1, h2⟩ := C6_mixed_wildcard
    ⟨[SelectItem.Wildcard, SelectItem.Expr (Expression.Column "id") none],
      some "t", none, none⟩ (by decide)
  exact ⟨h1, h2 (by simp)⟩

/-- C5 counterexample: a well-formed SELECT followed by trailing
non-whitespace parses successfully — the trailing input is silently
discarded rather than producing a parse error. -/
theorem C5_trailing_cex :
    parse_sql "SELECT * FROM users garbage here" =
      .ok (.Select ⟨[.Wildcard], some "users", none, none⟩) := by
  decide

/-- C5 (amended): `parse_sql` binds the unconsumed input to `_remaining` and
discards it: it returns the statement parsed from a prefix of the input, no
matter what (including non-whitespace) trails it, and fails only when the
`statement` parser itself fails. -/
theorem C5_parse_ignores_trailing :
    (∀ (s : String) (rest : List Char) (stmt : Statement),
      statementP s.toList = some (rest, stmt) → parse_sql s = .ok stmt) ∧
    (∀ s : String, statementP s.toList = none → parse_sql s = .error "Parse error") := by
  constructor
  · intro s rest stmt he
    simp only [parse_sql, he]
  · intro s he
    simp only [parse_sql, he]

/-- Witness for C5 at the concrete input with trailing garbage. -/
theorem C5_parse_ignores_trailing_witness :
    parse_sql "SELECT 1 junk" =
      .ok (.Select ⟨[.Expr (.Literal (.Integer 1)) none], none, none, none⟩) :=
  C5_parse_ignores_trailing.1 "SELECT 1 junk" "junk".toList
    (.Select ⟨[.Expr (.Literal (.Integer 1)) none], none, none, none⟩) (by decide)

theorem PageId.new_one_file_id (n : Nat) : (PageId.new 1 n).file_id = 1 := by
  simp only [PageId.new, PageId.file_id]
  omega

theorem PageId.new_one_page_no (n : Nat) (h : n < 2 ^ 32) :
    (PageId.new 1 n).page_no = n := by
  simp only [PageId.new, PageId.page_no]
  omega

theorem scanSlots_eq (schema : Schema) (hp : HeapPage) :
    ∀ l : List Nat, scanSlots schema hp l =
      (l.filterMap hp.read_tuple).mapM (fun d => deserialize_row d schema) := by
  intro l
  induction l with
  | nil => rfl
  | cons s rest ih =>
    cases hr : hp.read_tuple s with
    | none =>
      simp only [scanSlots, hr, List.filterMap_cons]
      exact ih
    | some d =>
      simp only [scanSlots, hr, List.filterMap_cons, List.mapM_cons]
      cases hd : deserialize_row d schema with
      | error e =>
        rfl
      | ok row =>
        rw [ih]
        cases hm : (rest.filterMap hp.read_tuple).mapM
            (fun d => deserialize_row d schema) with
        | error e => rfl
        | ok rows => rfl

theorem seqScanLoop_spec (files : FileStore) (schema : Schema) :
    ∀ (f p : Nat), (files 1).length < 2 ^ 32 → p ≤ (files 1).length →
      (files 1).length - p + 1 ≤ f →
      seqScanLoop files schema f p = scanPagesSpec schema ((files 1).drop p) := by
  intro f
  induction f with
  | zero => intro p _ _ hf; omega
  | succ f ih =>
    intro p hlen hp hf
    by_cases hplt : p < (files 1).length
    · have hdrop : (files 1).drop p = (files 1)[p] :: (files 1).drop (p + 1) :=
        List.drop_eq_getElem_cons hplt
      have hget : (files 1).get? p = some ((files 1)[p]) := by
        rw [List.get?_eq_getElem?, List.getElem?_eq_getElem hplt]
      cases hv : ((files 1)[p]).verify_checksum with
      | false =>
        have hrp : readPageModel files (PageId.new 1 p) = .error "checksum mismatch" := by
          simp only [readPageModel, PageId.new_one_file_id,
            PageId.new_one_page_no p (by omega), hget, hv]
          rfl
        rw [hdrop]
        simp only [seqScanLoop, hrp, scanPagesSpec]
        rw [if_neg (by simp [hv])]
      | true =>
        have hrp : readPageModel files (PageId.new 1 p) = .ok ((files 1)[p]) := by
          simp only [readPageModel, PageId.new_one_file_id,
            PageId.new_one_page_no p (by omega), hget, hv, if_true]
        have hih := ih (p + 1) hlen (by omega) (by omega)
        rw [hdrop]
        simp only [seqScanLoop, hrp, scanPagesSpec, hih]
        rw [if_pos hv]
    · have hdrop : (files 1).drop p = [] := List.drop_eq_nil_of_le (by omega)
      have hget : (files 1).get? p = none := List.get?_eq_none.mpr (by omega)
      have hrp : readPageModel files (PageId.new 1 p) = .error "io error" := by
        simp only [readPageModel, PageId.new_one_file_id,
          PageId.new_one_page_no p (by omega), hget]
      rw [hdrop]
      simp only [seqScanLoop, hrp, scanPagesSpec]

/-- C3: `execute_seq_scan` ignores the table name, walks pages
`page_no = 0, 1, 2, …` of `file_id = 1` only (so the result depends on the
store only through file 1), gathers one row per live slot of each page in
ascending slot order deserialized per the scan schema
(`pageRows = pageRowsSpec`), and stops at the first `read_page` error,
swallowing it: the result refines `scanPagesSpec` over the pages of file 1,
which returns `Ok` with the rows gathered so far at the first bad page. -/
theorem C3_seq_scan (schema : Schema) (files : FileStore)
    (hlen : (files 1).length < 2 ^ 32) :
    (∀ n1 n2 : String, execute_seq_scan n1 schema files = execute_seq_scan n2 schema files) ∧
    (∀ name : String,
      execute_seq_scan name schema files = scanPagesSpec schema (files 1)) ∧
    (∀ files' : FileStore, files 1 = files' 1 → ∀ name : String,
      execute_seq_scan name schema files = execute_seq_scan name schema files') ∧
    (∀ hp : HeapPage, pageRows schema hp = pageRowsSpec schema hp) := by
  have hmain : ∀ (fs : FileStore), (fs 1).length < 2 ^ 32 → ∀ name : String,
      execute_seq_scan name schema fs = scanPagesSpec schema (fs 1) := by
    intro fs hl name
    show seqScanLoop fs schema ((fs 1).length + 1) 0 = scanPagesSpec schema (fs 1)
    have := seqScanLoop_spec fs schema ((fs 1).length + 1) 0 hl (by omega) (by omega)
    rwa [List.drop_zero] at this
  refine ⟨?_, hmain files hlen, ?_, ?_⟩
  · intro n1 n2
    rw [hmain files hlen n1, hmain files hlen n2]
  · intro files' h name
    rw [hmain files hlen name, hmain files' (by rw [← h]; exact hlen) name, ← h]
  · intro hp
    show scanSlots schema hp (List.range hp.slot_count) = _
    rw [scanSlots_eq]
    rfl

theorem C3_seq_scan_witness :
    ((fun _ => ([] : List Page)) 1 : List Page).length < 2 ^ 32 ∧
      execute_seq_scan "users" ⟨[]⟩ (fun _ => ([] : List Page)) =
        scanPagesSpec ⟨[]⟩ ((fun _ => ([] : List Page)) 1) :=
  ⟨by decide, (C3_seq_scan ⟨[]⟩ (fun _ => ([] : List Page)) (by decide)).2.1 "users"⟩


theorem Page.read_u16_eq_of_byte_eq {p q : Page} {off : Nat}
    (h0 : p.byte off = q.byte off) (h1 : p.byte (off + 1) = q.byte (off + 1)) :
    p.read_u16 off = q.read_u16 off := by
  simp only [Page.read_u16, h0, h1]

theorem getD_map_range (f : Nat → Nat) {m t : Nat} (ht : t < m) :
    ((List.range m).map f).getD t 0 = f t := by
  rw [List.getD_eq_getElem?_getD, List.getElem?_map, List.getElem?_range ht]
  rfl

theorem sum_take_le (l : List Nat) (a : Nat) : (l.take a).sum ≤ l.sum := by
  conv_rhs => rw [← List.take_append_drop a l]
  rw [List.sum_append]
  omega

theorem sum_take_mono (l : List Nat) {a b : Nat} (h : a ≤ b) :
    (l.take a).sum ≤ (l.take b).sum := by
  have h1 : l.take a = (l.take b).take a := by rw [List.take_take, Nat.min_eq_left h]
  rw [h1]
  exact sum_take_le _ _

theorem liveEntries_mem {hp : HeapPage} {e : Nat × Slot} (he : e ∈ liveEntries hp) :
    e.1 < hp.slot_count ∧ e.2 = hp.read_slot e.1 ∧ e.2.len ≠ 0 := by
  simp only [liveEntries, List.mem_filter, List.mem_map, List.mem_range] at he
  obtain ⟨⟨i, hi, rfl⟩, hlen⟩ := he
  refine ⟨hi, rfl, ?_⟩
  simpa using hlen

theorem liveEntries_mem_of {hp : HeapPage} {i : Nat} (hi : i < hp.slot_count)
    (hlen : (hp.read_slot i).len ≠ 0) : (i, hp.read_slot i) ∈ liveEntries hp := by
  simp only [liveEntries, List.mem_filter, List.mem_map, List.mem_range]
  exact ⟨⟨i, hi, rfl⟩, by simpa using hlen⟩

theorem liveEntries_fst_not_mem {hp : HeapPage} {i : Nat}
    (hlen : (hp.read_slot i).len = 0) : i ∉ (liveEntries hp).map Prod.fst := by
  intro hmem
  rw [List.mem_map] at hmem
  obtain ⟨b, hb, hb1⟩ := hmem
  obtain ⟨_, hb2, hb3⟩ := liveEntries_mem hb
  rw [hb2, hb1] at hb3
  exact hb3 hlen

theorem liveEntries_pairwise (hp : HeapPage) (hS : SlotsInv hp) :
    (liveEntries hp).Pairwise (fun a b => a.1 < b.1 ∧ a.2.off + a.2.len ≤ b.2.off) := by
  have h1 : ((List.range hp.slot_count).map (fun i => (i, hp.read_slot i))).Pairwise
      (fun a b => a.1 < b.1) := by
    rw [List.pairwise_map]
    exact List.pairwise_lt_range _
  have h2 : (liveEntries hp).Pairwise (fun a b => a.1 < b.1) := h1.filter _
  refine h2.imp_of_mem ?_
  intro a b ha hb hab
  obtain ⟨haN, ha2, halen⟩ := liveEntries_mem ha
  obtain ⟨hbN, hb2, hblen⟩ := liveEntries_mem hb
  refine ⟨hab, ?_⟩
  have h3 := hS.2 b.1 hbN a.1 hab (by rw [← ha2]; exact halen) (by rw [← hb2]; exact hblen)
  rw [← ha2, ← hb2] at h3
  exact h3

theorem liveEntries_sum (hp : HeapPage) :
    ((liveEntries hp).map (fun e => e.2.len)).sum = liveSum hp := by
  simp only [liveEntries, liveSum]
  generalize List.range hp.slot_count = l
  induction l with
  | nil => rfl
  | cons a l ih =>
    by_cases h : (hp.read_slot a).len = 0
    · simp only [List.map_cons, List.filter_cons, List.sum_cons]
      rw [if_neg (by simp [h]), ih, h]
      omega
    · simp only [List.map_cons, List.filter_cons, List.sum_cons]
      rw [if_pos (by simp [h])]
      simp only [List.map_cons, List.sum_cons]
      rw [ih]

theorem Page.read_u16_pair_eq {p q : Page} {base : Nat}
    (h : ∀ d, d < 4 → p.byte (base + d) = q.byte (base + d)) :
    p.read_u16 base = q.read_u16 base ∧
      p.read_u16 (base + 2) = q.read_u16 (base + 2) := by
  have h0 := h 0 (by omega)
  have h1 := h 1 (by omega)
  have h2 := h 2 (by omega)
  have h3 := h 3 (by omega)
  rw [Nat.add_zero] at h0
  rw [(by omega : base + 3 = base + 2 + 1)] at h3
  exact ⟨Page.read_u16_eq_of_byte_eq h0 h1, Page.read_u16_eq_of_byte_eq h2 h3⟩

theorem compactFold_spec (P0 : Page) (U L N : Nat)
    (hU8 : U ≤ 8192) (hN : N = (8192 - U) / 4) (hU4 : U % 4 = 0) (hLU : L ≤ U)
    (hL16 : L < 2 ^ 16) :
    ∀ (es : List (Nat × Slot)) (pg : Page) (scr : Nat → Nat) (lo : Nat),
      (∀ j, j < U → pg.byte j = P0.byte j) →
      32 ≤ lo → lo ≤ L →
      (∀ e ∈ es, e.1 < N ∧ 32 ≤ e.2.off ∧ e.2.off + e.2.len ≤ L) →
      es.Pairwise (fun a b => a.1 < b.1 ∧ a.2.off + a.2.len ≤ b.2.off) →
      (∀ e, es.head? = some e → lo ≤ e.2.off) →
      (es.foldl HeapPage.compactStep (pg, scr, lo)).2.2 =
          lo + (es.map (fun e => e.2.len)).sum ∧
      (es.foldl HeapPage.compactStep (pg, scr, lo)).2.2 ≤ L ∧
      (∀ j, j < U →
        (es.foldl HeapPage.compactStep (pg, scr, lo)).1.byte j = pg.byte j) ∧
      (∀ i, i < N → i ∉ es.map Prod.fst → ∀ d, d < 4 →
        (es.foldl HeapPage.compactStep (pg, scr, lo)).1.byte (8192 - (i + 1) * 4 + d) =
          pg.byte (8192 - (i + 1) * 4 + d)) ∧
      (∀ k, (hk : k < es.length) →
        (es.foldl HeapPage.compactStep (pg, scr, lo)).1.read_u16
            (8192 - ((es.get ⟨k, hk⟩).1 + 1) * 4) =
          lo + ((es.take k).map (fun e => e.2.len)).sum ∧
        (es.foldl HeapPage.compactStep (pg, scr, lo)).1.read_u16
            (8192 - ((es.get ⟨k, hk⟩).1 + 1) * 4 + 2) = (es.get ⟨k, hk⟩).2.len ∧
        (∀ d, d < (es.get ⟨k, hk⟩).2.len →
          (es.foldl HeapPage.compactStep (pg, scr, lo)).2.1
              (lo + ((es.take k).map (fun e => e.2.len)).sum - 32 + d) =
            P0.byte ((es.get ⟨k, hk⟩).2.off + d))) ∧
      (∀ j, j < lo - 32 →
        (es.foldl HeapPage.compactStep (pg, scr, lo)).2.1 j = scr j) := by
  intro es
  induction es with
  | nil =>
    intro pg scr lo hpg hlo32 hloL hes hpair hfirst
    refine ⟨by simp, hloL, fun j hj => rfl, fun i hi hn d hd => rfl,
      fun k hk => absurd hk (by simp), fun j hj => rfl⟩
  | cons e rest ih =>
    intro pg scr lo hpg hlo32 hloL hes hpair hfirst
    obtain ⟨heN, heoff, heoffL⟩ := hes e (List.mem_cons_self e rest)
    have hstep : HeapPage.compactStep (pg, scr, lo) e =
        ((pg.write_u16 (8192 - (e.1 + 1) * 4) lo).write_u16
            (8192 - (e.1 + 1) * 4 + 2) e.2.len,
         fun j => if lo - 32 ≤ j ∧ j < lo - 32 + e.2.len then
           (pg.readBytes e.2.off e.2.len).getD (j - (lo - 32)) 0 else scr j,
         lo + e.2.len) := rfl
    simp only [List.foldl_cons]
    rw [hstep]
    have hloS : lo ≤ e.2.off := hfirst e rfl
    obtain ⟨hhead, htail⟩ := List.pairwise_cons.mp hpair
    have hpg' : ∀ j, j < U →
        ((pg.write_u16 (8192 - (e.1 + 1) * 4) lo).write_u16
          (8192 - (e.1 + 1) * 4 + 2) e.2.len).byte j = P0.byte j := by
      intro j hj
      rw [Page.byte_write_u16_of_out _ _ (Or.inl (by omega)),
        Page.byte_write_u16_of_out _ _ (Or.inl (by omega))]
      exact hpg j hj
    have hfirst' : ∀ e2, rest.head? = some e2 → lo + e.2.len ≤ e2.2.off := by
      intro e2 he2
      have hR := hhead e2 (List.mem_of_mem_head? he2)
      omega
    obtain ⟨H1, H2, H3, H4, H5, H7⟩ := ih
      ((pg.write_u16 (8192 - (e.1 + 1) * 4) lo).write_u16
        (8192 - (e.1 + 1) * 4 + 2) e.2.len)
      (fun j => if lo - 32 ≤ j ∧ j < lo - 32 + e.2.len then
        (pg.readBytes e.2.off e.2.len).getD (j - (lo - 32)) 0 else scr j)
      (lo + e.2.len)
      hpg' (by omega) (by omega)
      (fun e2 he2 => hes e2 (List.mem_cons_of_mem e he2))
      htail hfirst'
    refine ⟨?_, ?_, ?_, ?_, ?_, ?_⟩
    · rw [H1, List.map_cons, List.sum_cons]
      omega
    · exact H2
    · intro j hj
      rw [H3 j hj, Page.byte_write_u16_of_out _ _ (Or.inl (by omega)),
        Page.byte_write_u16_of_out _ _ (Or.inl (by omega))]
    · intro i hi hni d hd
      rw [List.map_cons, List.mem_cons] at hni
      push_neg at hni
      rw [H4 i hi hni.2 d hd,
        Page.byte_write_u16_of_out _ _ (by omega),
        Page.byte_write_u16_of_out _ _ (by omega)]
    · intro k hk
      cases k with
      | zero =>
        have hget0 : (e :: rest).get ⟨0, hk⟩ = e := rfl
        rw [hget0]
        simp only [List.take_zero, List.map_nil, List.sum_nil, Nat.add_zero]
        have hnotin : e.1 ∉ rest.map Prod.fst := by
          intro hmem
          rw [List.mem_map] at hmem
          obtain ⟨b, hb, hb1⟩ := hmem
          have := (hhead b hb).1
          omega
        obtain ⟨r0, r2⟩ := Page.read_u16_pair_eq (fun d hd => H4 e.1 heN hnotin d hd)
        refine ⟨?_, ?_, ?_⟩
        · rw [r0,
            Page.read_u16_write_u16_of_ne _ _ (Or.inl (by omega)),
            Page.read_u16_write_u16_same]
          omega
        · rw [r2, Page.read_u16_write_u16_same]
          omega
        · intro d hd
          rw [H7 (lo - 32 + d) (by omega)]
          show (if lo - 32 ≤ lo - 32 + d ∧ lo - 32 + d < lo - 32 + e.2.len then
              (pg.readBytes e.2.off e.2.len).getD (lo - 32 + d - (lo - 32)) 0
            else scr (lo - 32 + d)) = P0.byte (e.2.off + d)
          rw [if_pos ⟨by omega, by omega⟩,
            (by omega : lo - 32 + d - (lo - 32) = d),
            Page.readBytes_getD _ _ _ _ hd]
          exact hpg _ (by omega)
      | succ k2 =>
        have hk2 : k2 < rest.length := by
          simp only [List.length_cons] at hk
          omega
        obtain ⟨Ha, Hb, Hc⟩ := H5 k2 hk2
        have hgetS : (e :: rest).get ⟨k2 + 1, hk⟩ = rest.get ⟨k2, hk2⟩ := rfl
        rw [hgetS]
        simp only [List.take_succ_cons, List.map_cons, List.sum_cons]
        refine ⟨?_, ?_, ?_⟩
        · rw [Ha]
          omega
        · exact Hb
        · intro d hd
          rw [(by omega : lo + (e.2.len + ((rest.take k2).map (fun e => e.2.len)).sum) - 32 + d
            = lo + e.2.len + ((rest.take k2).map (fun e => e.2.len)).sum - 32 + d)]
          exact Hc d hd
    · intro j hj
      rw [H7 j (by omega)]
      show (if lo - 32 ≤ j ∧ j < lo - 32 + e.2.len then
          (pg.readBytes e.2.off e.2.len).getD (j - (lo - 32)) 0
        else scr j) = scr j
      rw [if_neg (by omega)]

theorem compact_spec {hp : HeapPage} (hWF : WF hp) :
    hp.compact.page.read_u16 24 = hp.page.read_u16 24 ∧
    hp.compact.page.read_u16 22 = 32 + liveSum hp ∧
    32 + liveSum hp ≤ hp.page.read_u16 22 ∧
    hp.compact.slot_count = hp.slot_count ∧
    WF hp.compact ∧
    (∀ i, hp.compact.read_tuple i = hp.read_tuple i) := by
  obtain ⟨⟨hL32, hLU, hU8, hU4⟩, hSlots⟩ := hWF
  have hL32x : 32 ≤ hp.page.read_u16 22 := hL32
  have hLUx : hp.page.read_u16 22 ≤ hp.page.read_u16 24 := hLU
  have hU8x : hp.page.read_u16 24 ≤ 8192 := hU8
  have hU4x : hp.page.read_u16 24 % 4 = 0 := hU4
  have hL16 : hp.page.read_u16 22 < 2 ^ 16 := Page.read_u16_lt _ _
  have hU16 : hp.page.read_u16 24 < 2 ^ 16 := Page.read_u16_lt _ _
  have hNdef : hp.slot_count = (8192 - hp.page.read_u16 24) / 4 := rfl
  obtain ⟨⟨pgF, scrF, loF⟩, hst⟩ :
      ∃ st, (liveEntries hp).foldl HeapPage.compactStep (hp.page, fun _ => 0, 32) = st :=
    ⟨_, rfl⟩
  have h3F : ((liveEntries hp).foldl HeapPage.compactStep (hp.page, fun _ => 0, 32)).1 =
      pgF := by rw [hst]
  have h2F : ((liveEntries hp).foldl HeapPage.compactStep (hp.page, fun _ => 0, 32)).2.1 =
      scrF := by rw [hst]
  have h1F : ((liveEntries hp).foldl HeapPage.compactStep (hp.page, fun _ => 0, 32)).2.2 =
      loF := by rw [hst]
  have hes : ∀ e ∈ liveEntries hp, e.1 < hp.slot_count ∧ 32 ≤ e.2.off ∧
      e.2.off + e.2.len ≤ hp.page.read_u16 22 := by
    intro e he
    obtain ⟨h1, h2, h3⟩ := liveEntries_mem he
    obtain ⟨h4, h5⟩ := hSlots.1 e.1 h1 (by rw [← h2]; exact h3)
    exact ⟨h1, by rw [h2]; exact h4, by rw [h2]; exact h5⟩
  have hpair := liveEntries_pairwise hp hSlots
  have hfirst : ∀ e, (liveEntries hp).head? = some e → 32 ≤ e.2.off := by
    intro e he
    exact (hes e (List.mem_of_mem_head? he)).2.1
  obtain ⟨H1, H2, H3, H4, H5, H7⟩ :=
    compactFold_spec hp.page (hp.page.read_u16 24) (hp.page.read_u16 22) hp.slot_count
      hU8x hNdef hU4x hLUx hL16 (liveEntries hp) hp.page (fun _ => 0) 32
      (fun j _ => rfl) (by omega) hL32x hes hpair hfirst
  rw [h1F] at H1 H2
  rw [h3F] at H3 H4
  rw [h3F, h2F] at H5
  have hsum : loF = 32 + liveSum hp := by rw [H1, liveEntries_sum]
  have hloFL : loF ≤ hp.page.read_u16 22 := H2
  have hloF32 : 32 ≤ loF := by omega
  have hcomp : hp.compact.page =
      ((pgF.copyTo 32 ((List.range (loF - 32)).map scrF)).write_header
        { hp.page.header with lower := loF }).recompute_checksum := by
    show ((((liveEntries hp).foldl HeapPage.compactStep
        (hp.page, fun _ => 0, 32)).1.copyTo 32
        ((List.range (((liveEntries hp).foldl HeapPage.compactStep
          (hp.page, fun _ => 0, 32)).2.2 - 32)).map
          ((liveEntries hp).foldl HeapPage.compactStep
            (hp.page, fun _ => 0, 32)).2.1)).write_header
        { hp.page.header with lower :=
            ((liveEntries hp).foldl HeapPage.compactStep
              (hp.page, fun _ => 0, 32)).2.2 }).recompute_checksum = _
    rw [hst]
  have hlenmap : ((List.range (loF - 32)).map scrF).length = loF - 32 := by
    rw [List.length_map, List.length_range]
  have hres6 : ({ hp.page.header with lower := loF } : PageHeader).reserved.length = 6 :=
    Page.header_reserved_len hp.page
  have f24 : hp.compact.page.read_u16 24 = hp.page.read_u16 24 := by
    rw [hcomp, Page.read_u16_recompute_of_ge _ (by omega),
      Page.read_u16_write_header_upper]
    show hp.page.read_u16 24 % 2 ^ 16 = hp.page.read_u16 24
    omega
  have f22 : hp.compact.page.read_u16 22 = loF := by
    rw [hcomp, Page.read_u16_recompute_of_ge _ (by omega),
      Page.read_u16_write_header_lower]
    show loF % 2 ^ 16 = loF
    omega
  have fcnt : hp.compact.slot_count = hp.slot_count := by
    show (PAGE_SIZE - hp.compact.page.read_u16 24) / SLOT_SIZE = _
    rw [f24]
    rfl
  have fslotbyte : ∀ j, loF ≤ j → hp.compact.page.byte j = pgF.byte j := by
    intro j hj
    rw [hcomp, Page.byte_recompute_of_ge _ (by omega),
      Page.byte_write_header_of_ge _ _ hres6 (by omega),
      Page.byte_copyTo_of_ge _ _ (by rw [hlenmap]; omega)]
  have fslotread : ∀ off, loF ≤ off → hp.compact.page.read_u16 off = pgF.read_u16 off :=
    fun off hoff =>
      Page.read_u16_eq_of_byte_eq (fslotbyte _ hoff) (fslotbyte _ (by omega))
  have fdata : ∀ j, 32 ≤ j → j < loF → hp.compact.page.byte j = scrF (j - 32) % 256 := by
    intro j hj1 hj2
    rw [hcomp, Page.byte_recompute_of_ge _ (by omega),
      Page.byte_write_header_of_ge _ _ hres6 hj1,
      Page.byte_copyTo_of_mem _ _ hj1 (by rw [hlenmap]; omega),
      getD_map_range _ (by omega)]
  have rsC : ∀ i, i < hp.slot_count → hp.compact.read_slot i =
      ⟨hp.compact.page.read_u16 (8192 - (i + 1) * 4),
       hp.compact.page.read_u16 (8192 - (i + 1) * 4 + 2)⟩ := by
    intro i hi
    have hcl : hp.compact.page.header.upper ≤ PAGE_SIZE - (i + 1) * SLOT_SIZE := by
      show hp.compact.page.read_u16 24 ≤ _
      rw [f24]
      simp only [PAGE_SIZE, SLOT_SIZE]
      rw [hNdef] at hi
      omega
    rw [HeapPage.read_slot_eq hp.compact i hcl]
    rfl
  have rsO : ∀ i, i < hp.slot_count → hp.read_slot i =
      ⟨hp.page.read_u16 (8192 - (i + 1) * 4),
       hp.page.read_u16 (8192 - (i + 1) * 4 + 2)⟩ := by
    intro i hi
    have hcl : hp.page.header.upper ≤ PAGE_SIZE - (i + 1) * SLOT_SIZE := by
      show hp.page.read_u16 24 ≤ _
      simp only [PAGE_SIZE, SLOT_SIZE]
      rw [hNdef] at hi
      omega
    rw [HeapPage.read_slot_eq hp i hcl]
    rfl
  have hslotD : ∀ i, i < hp.slot_count → (hp.read_slot i).len = 0 →
      hp.compact.read_slot i = hp.read_slot i := by
    intro i hi hdead
    have hnm := liveEntries_fst_not_mem hdead
    have hbase : hp.page.read_u16 24 ≤ 8192 - (i + 1) * 4 := by
      rw [hNdef] at hi; omega
    obtain ⟨r0, r2⟩ := Page.read_u16_pair_eq (fun d hd => H4 i hi hnm d hd)
    rw [rsC i hi, rsO i hi, fslotread _ (by omega), fslotread _ (by omega), r0, r2]
  have hslotL : ∀ i, i < hp.slot_count → (hp.read_slot i).len ≠ 0 →
      ∃ k : Fin (liveEntries hp).length,
        (liveEntries hp).get k = (i, hp.read_slot i) ∧
        hp.compact.read_slot i =
          ⟨32 + (((liveEntries hp).take k.1).map (fun e => e.2.len)).sum,
            (hp.read_slot i).len⟩ ∧
        (((liveEntries hp).take (k.1 + 1)).map (fun e => e.2.len)).sum =
          (((liveEntries hp).take k.1).map (fun e => e.2.len)).sum +
            (hp.read_slot i).len ∧
        32 + (((liveEntries hp).take (k.1 + 1)).map (fun e => e.2.len)).sum ≤ loF ∧
        (∀ d, d < (hp.read_slot i).len →
          hp.compact.page.byte
              (32 + (((liveEntries hp).take k.1).map (fun e => e.2.len)).sum + d) =
            hp.page.byte ((hp.read_slot i).off + d)) := by
    intro i hi hdead
    obtain ⟨k, hgk⟩ := List.mem_iff_get.mp (liveEntries_mem_of hi hdead)
    have hgk2 : (liveEntries hp).get ⟨k.1, k.2⟩ = (i, hp.read_slot i) := hgk
    obtain ⟨Ha, Hb, Hc⟩ := H5 k.1 k.2
    rw [hgk2] at Ha Hb Hc
    have Ha2 : pgF.read_u16 (8192 - (i + 1) * 4) =
        32 + (((liveEntries hp).take k.1).map (fun e => e.2.len)).sum := Ha
    have Hb2 : pgF.read_u16 (8192 - (i + 1) * 4 + 2) = (hp.read_slot i).len := Hb
    have Hc2 : ∀ d, d < (hp.read_slot i).len →
        scrF (32 + (((liveEntries hp).take k.1).map (fun e => e.2.len)).sum - 32 + d) =
          hp.page.byte ((hp.read_slot i).off + d) := Hc
    have hbase : hp.page.read_u16 24 ≤ 8192 - (i + 1) * 4 := by
      rw [hNdef] at hi; omega
    have hkm : k.1 < ((liveEntries hp).map (fun e => e.2.len)).length := by
      rw [List.length_map]; exact k.2
    have hgk3 : (liveEntries hp)[k.1] = (i, hp.read_slot i) := by
      have h := hgk2
      rw [List.get_eq_getElem] at h
      exact h
    have hsucc := List.sum_take_succ ((liveEntries hp).map (fun e => e.2.len)) k.1 hkm
    rw [List.getElem_map, hgk3] at hsucc
    have hsucc2 : (((liveEntries hp).map (fun e => e.2.len)).take (k.1 + 1)).sum =
        (((liveEntries hp).map (fun e => e.2.len)).take k.1).sum +
          (hp.read_slot i).len := hsucc
    have htk1 : ((liveEntries hp).take k.1).map (fun e => e.2.len) =
        ((liveEntries hp).map (fun e => e.2.len)).take k.1 := by
      rw [List.map_take]
    have htk2 : ((liveEntries hp).take (k.1 + 1)).map (fun e => e.2.len) =
        ((liveEntries hp).map (fun e => e.2.len)).take (k.1 + 1) := by
      rw [List.map_take]
    have hsum2 : (((liveEntries hp).take (k.1 + 1)).map (fun e => e.2.len)).sum =
        (((liveEntries hp).take k.1).map (fun e => e.2.len)).sum +
          (hp.read_slot i).len := by
      rw [htk1, htk2]
      exact hsucc2
    have hle2 : (((liveEntries hp).take (k.1 + 1)).map (fun e => e.2.len)).sum ≤
        ((liveEntries hp).map (fun e => e.2.len)).sum := by
      rw [htk2]; exact sum_take_le _ _
    have hbound : 32 + (((liveEntries hp).take (k.1 + 1)).map (fun e => e.2.len)).sum ≤
        loF := by omega
    refine ⟨k, hgk, ?_, hsum2, hbound, ?_⟩
    · rw [rsC i hi, fslotread _ (by omega), fslotread _ (by omega), Ha2, Hb2]
    · intro d hd
      rw [fdata _ (by omega) (by omega),
        (by omega : 32 + (((liveEntries hp).take k.1).map (fun e => e.2.len)).sum + d - 32
          = 32 + (((liveEntries hp).take k.1).map (fun e => e.2.len)).sum - 32 + d),
        Hc2 d hd]
      exact Nat.mod_eq_of_lt (Page.byte_lt _ _)
  have htup : ∀ i, hp.compact.read_tuple i = hp.read_tuple i := by
    intro i
    by_cases hi : i < hp.slot_count
    · by_cases hdead : (hp.read_slot i).len = 0
      · have hsl := hslotD i hi hdead
        simp only [HeapPage.read_tuple]
        rw [if_neg (show ¬ i ≥ hp.compact.slot_count by rw [fcnt]; omega),
          if_neg (show ¬ i ≥ hp.slot_count from by omega), hsl,
          if_pos hdead, if_pos hdead]
      · obtain ⟨k, hgk, hsl, hsum2, hbound, hbytes⟩ := hslotL i hi hdead
        simp only [HeapPage.read_tuple]
        rw [if_neg (show ¬ i ≥ hp.compact.slot_count by rw [fcnt]; omega),
          if_neg (show ¬ i ≥ hp.slot_count from by omega), hsl]
        rw [if_neg (show ¬ ((⟨32 + (((liveEntries hp).take k.1).map
            (fun e => e.2.len)).sum, (hp.read_slot i).len⟩ : Slot).len = 0) from hdead),
          if_neg hdead]
        show some (hp.compact.page.readBytes
            (32 + (((liveEntries hp).take k.1).map (fun e => e.2.len)).sum)
            (hp.read_slot i).len) =
          some (hp.page.readBytes (hp.read_slot i).off (hp.read_slot i).len)
        congr 1
        simp only [Page.readBytes]
        refine List.map_congr_left fun d hd => ?_
        rw [List.mem_range] at hd
        exact hbytes d hd
    · simp only [HeapPage.read_tuple]
      rw [if_pos (show i ≥ hp.compact.slot_count by rw [fcnt]; omega),
        if_pos (show i ≥ hp.slot_count from by omega)]
  have hWF2 : WF hp.compact := by
    refine ⟨⟨?_, ?_, ?_, ?_⟩, ?_, ?_⟩
    · show (HEADER_LEN : Nat) ≤ hp.compact.page.read_u16 22
      rw [f22]
      simp only [HEADER_LEN]
      omega
    · show hp.compact.page.read_u16 22 ≤ hp.compact.page.read_u16 24
      rw [f22, f24]
      omega
    · show hp.compact.page.read_u16 24 ≤ PAGE_SIZE
      rw [f24]
      simp only [PAGE_SIZE]
      omega
    · show hp.compact.page.read_u16 24 % 4 = 0
      rw [f24]
      omega
    · intro i hiC hlenC
      rw [fcnt] at hiC
      by_cases hdead : (hp.read_slot i).len = 0
      · rw [hslotD i hiC hdead] at hlenC
        exact absurd hdead hlenC
      · obtain ⟨k, hgk, hsl, hsum2, hbound, _⟩ := hslotL i hiC hdead
        rw [hsl]
        constructor
        · show (HEADER_LEN : Nat) ≤
            32 + (((liveEntries hp).take k.1).map (fun e => e.2.len)).sum
          simp only [HEADER_LEN]
          omega
        · show 32 + (((liveEntries hp).take k.1).map (fun e => e.2.len)).sum +
              (hp.read_slot i).len ≤ hp.compact.page.read_u16 22
          rw [f22]
          omega
    · intro j hjC i hij hlivei hlivej
      rw [fcnt] at hjC
      have hiC : i < hp.slot_count := by omega
      have hdi : (hp.read_slot i).len ≠ 0 := by
        intro h0
        rw [hslotD i hiC h0] at hlivei
        exact hlivei h0
      have hdj : (hp.read_slot j).len ≠ 0 := by
        intro h0
        rw [hslotD j hjC h0] at hlivej
        exact hlivej h0
      obtain ⟨ki, hgki, hsli, hsumi, hboundi, _⟩ := hslotL i hiC hdi
      obtain ⟨kj, hgkj, hslj, hsumj, hboundj, _⟩ := hslotL j hjC hdj
      have hfst := List.pairwise_iff_getElem.mp (hpair.imp (fun h => h.1))
      have hgki2 : (liveEntries hp)[ki.1] = (i, hp.read_slot i) := by
        have h := hgki
        rw [List.get_eq_getElem] at h
        exact h
      have hgkj2 : (liveEntries hp)[kj.1] = (j, hp.read_slot j) := by
        have h := hgkj
        rw [List.get_eq_getElem] at h
        exact h
      have hkk : ki.1 < kj.1 := by
        rcases Nat.lt_trichotomy ki.1 kj.1 with h | h | h
        · exact h
        · exfalso
          have hkeq : ki = kj := Fin.val_injective h
          rw [hkeq] at hgki
          have hik : (i, hp.read_slot i) = (j, hp.read_slot j) :=
            hgki.symm.trans hgkj
          have : i = j := congrArg Prod.fst hik
          omega
        · exfalso
          have hlt := hfst kj.1 ki.1 kj.2 ki.2 h
          rw [hgki2, hgkj2] at hlt
          have : j < i := hlt
          omega
      have hmono : (((liveEntries hp).take (ki.1 + 1)).map (fun e => e.2.len)).sum ≤
          (((liveEntries hp).take kj.1).map (fun e => e.2.len)).sum := by
        rw [List.map_take, List.map_take]
        exact sum_take_mono _ hkk
      rw [hsli, hslj]
      show 32 + (((liveEntries hp).take ki.1).map (fun e => e.2.len)).sum +
          (hp.read_slot i).len ≤
        32 + (((liveEntries hp).take kj.1).map (fun e => e.2.len)).sum
      omega
  refine ⟨f24, by rw [f22, hsum], by omega, fcnt, hWF2, htup⟩

theorem delete_WF {hp hp' : HeapPage} {s : Nat} (hWF : WF hp)
    (he : hp.delete_tuple s = .ok hp') : WF hp' := by
  by_cases h1 : s ≥ hp.slot_count
  · rw [delete_tuple_eq_err hp s h1] at he
    exact absurd he (by simp)
  · by_cases h2 : (hp.read_slot s).len = 0
    · rw [delete_tuple_eq_dead hp s h1 h2] at he
      rw [Except.ok.injEq] at he
      rw [← he]
      exact hWF
    · obtain ⟨hp2, he2, -, -, -, hWF2, -⟩ := delete_spec hWF (by omega) h2
      rw [he2, Except.ok.injEq] at he
      rw [← he]
      exact hWF2

theorem Reach_WF {hp : HeapPage} (h : Reach hp) : WF hp := by
  induction h with
  | base pid => exact WF_new_empty pid
  | ins h he ih => exact (insert_spec ih he).2.2.2.2.1
  | del h he ih => exact delete_WF ih he
  | cmp h ih => exact (compact_spec ih).2.2.2.2.1

/-- C7: starting from `HeapPage::new_empty`, every sequence of `insert_tuple`,
`delete_tuple` and `compact` operations maintains
`HEADER_LEN ≤ lower ≤ upper ≤ PAGE_SIZE` in the page header (`lower` at byte
offset 22, `upper` at 24), and `free_space()` always equals `upper - lower`. -/
theorem C7_header_invariant (hp : HeapPage) (h : Reach hp) :
    HEADER_LEN ≤ hp.page.read_u16 22 ∧
    hp.page.read_u16 22 ≤ hp.page.read_u16 24 ∧
    hp.page.read_u16 24 ≤ PAGE_SIZE ∧
    hp.page.free_space = hp.page.read_u16 24 - hp.page.read_u16 22 := by
  obtain ⟨⟨h1, h2, h3, -⟩, -⟩ := Reach_WF h
  exact ⟨h1, h2, h3, rfl⟩

theorem C7_header_invariant_witness :
    Reach (HeapPage.new_empty ⟨0⟩) ∧
      (HEADER_LEN ≤ (HeapPage.new_empty ⟨0⟩).page.read_u16 22 ∧
        (HeapPage.new_empty ⟨0⟩).page.read_u16 22 ≤
          (HeapPage.new_empty ⟨0⟩).page.read_u16 24 ∧
        (HeapPage.new_empty ⟨0⟩).page.read_u16 24 ≤ PAGE_SIZE ∧
        (HeapPage.new_empty ⟨0⟩).page.free_space =
          (HeapPage.new_empty ⟨0⟩).page.read_u16 24 -
            (HeapPage.new_empty ⟨0⟩).page.read_u16 22) :=
  ⟨Reach.base ⟨0⟩, C7_header_invariant (HeapPage.new_empty ⟨0⟩) (Reach.base ⟨0⟩)⟩

/-- C2 (corrected): on a well-formed page, `compact` preserves the bytes and
slot index of every live tuple and keeps tombstoned slots returning `None`
(`read_tuple` is unchanged at every index), and `free_space` never
decreases — it grows by exactly the dead space `lower - (HEADER_LEN +
liveSum)`, hence grows strictly iff that dead space is nonzero.  The spec's
claim that `free_space` strictly increases whenever a tombstone exists is
refuted by `C2_compact_cex`: a zero-length tombstone occupies no data bytes,
so compaction reclaims nothing. -/
theorem C2_compact (hp : HeapPage) (hWF : WF hp) :
    (∀ i, hp.compact.read_tuple i = hp.read_tuple i) ∧
    hp.page.free_space ≤ hp.compact.page.free_space ∧
    hp.compact.page.free_space =
      hp.page.free_space + (hp.page.read_u16 22 - (HEADER_LEN + liveSum hp)) ∧
    (HEADER_LEN + liveSum hp < hp.page.read_u16 22 →
      hp.page.free_space < hp.compact.page.free_space) := by
  obtain ⟨h24, h22, hle, hcnt, hWF2, htup⟩ := compact_spec hWF
  have hLU : hp.page.read_u16 22 ≤ hp.page.read_u16 24 := hWF.1.2.1
  have hf0 : hp.page.free_space = hp.page.read_u16 24 - hp.page.read_u16 22 := rfl
  have hf1 : hp.compact.page.free_space =
      hp.compact.page.read_u16 24 - hp.compact.page.read_u16 22 := rfl
  rw [h24, h22] at hf1
  simp only [HEADER_LEN]
  refine ⟨htup, by omega, by omega, by omega⟩

theorem C2_compact_witness :
    WF (HeapPage.new_empty ⟨0⟩) ∧
      ((∀ i, (HeapPage.new_empty ⟨0⟩).compact.read_tuple i =
        (HeapPage.new_empty ⟨0⟩).read_tuple i) ∧
      (HeapPage.new_empty ⟨0⟩).page.free_space ≤
        (HeapPage.new_empty ⟨0⟩).compact.page.free_space ∧
      (HeapPage.new_empty ⟨0⟩).compact.page.free_space =
        (HeapPage.new_empty ⟨0⟩).page.free_space +
          ((HeapPage.new_empty ⟨0⟩).page.read_u16 22 -
            (HEADER_LEN + liveSum (HeapPage.new_empty ⟨0⟩))) ∧
      (HEADER_LEN + liveSum (HeapPage.new_empty ⟨0⟩) <
          (HeapPage.new_empty ⟨0⟩).page.read_u16 22 →
        (HeapPage.new_empty ⟨0⟩).page.free_space <
          (HeapPage.new_empty ⟨0⟩).compact.page.free_space)) :=
  ⟨WF_new_empty ⟨0⟩, C2_compact (HeapPage.new_empty ⟨0⟩) (WF_new_empty ⟨0⟩)⟩

/-- C2 counterexample to the strict-increase clause: inserting a zero-length
tuple succeeds and creates a slot with `len = 0` — a tombstone for
`read_tuple` — yet `compact` leaves `free_space` unchanged, because the
tombstone holds no data bytes and its slot-directory entry is not removed. -/
theorem C2_compact_cex :
    ∃ hp : HeapPage, ∃ s : Nat,
      (HeapPage.new_empty ⟨0⟩).insert_tuple [] = .ok (hp, s) ∧
      0 < hp.slot_count ∧ (hp.read_slot 0).len = 0 ∧
      hp.read_tuple 0 = none ∧
      hp.compact.page.free_space = hp.page.free_space := by
  refine ⟨_, _, insert_tuple_eq (HeapPage.new_empty ⟨0⟩) [] (by decide),
    ?_, ?_, ?_, ?_⟩ <;> decide
